import Mathlib

/-!
Shallow Lean embedding of the extraction core of the `sber-invest-report`
repository (`src/utils.rs`, `src/parser.rs`, `src/report.rs`,
`src/report_set.rs`), together with theorems settling the specification
claims about it.

Modelling conventions:
* Rust strings are Lean `String`s (lists of Unicode scalar values).
* `rust_decimal::Decimal` is modelled by the exact rationals `ℚ`; decimal
  addition in the ranges appearing in brokerage statements is exact, which
  is what the specification relies on.
* External library entry points used by the core (`Decimal::from_str`,
  chrono `NaiveDate::parse_from_str` with the fixed format string
  `%d.%m.%Y`, Rust `str::trim`, `char::is_whitespace`, `str::to_lowercase`
  and `str::parse::<i32>`) are modelled as explicit Lean functions,
  documented at their definitions.
* An HTML table is modelled at the cell level: a row is the list of the
  (text-collected) cell strings of its `td`/`th` elements, a table is the
  list of its `tr` rows, a document is the list of its tables in document
  order.  All structural decisions of the extractors happen at this level.
-/

/-! ## Character and string helpers -/

/-- Models the Unicode White_Space property used by Rust `str::trim` and
`char::is_whitespace` (the code points carrying White_Space=yes). -/
def isRustWhitespace (c : Char) : Bool :=
  (0x09 ≤ c.toNat && c.toNat ≤ 0x0D) || c.toNat = 0x20 || c.toNat = 0x85 ||
  c.toNat = 0xA0 || c.toNat = 0x1680 ||
  (0x2000 ≤ c.toNat && c.toNat ≤ 0x200A) || c.toNat = 0x2028 ||
  c.toNat = 0x2029 || c.toNat = 0x202F || c.toNat = 0x205F || c.toNat = 0x3000

/-- Drops leading and trailing White_Space characters, as Rust `str::trim`. -/
def rustTrimChars (cs : List Char) : List Char :=
  (cs.dropWhile isRustWhitespace).rdropWhile isRustWhitespace

/-- Rust `str::trim` on a `String`. -/
def rustTrim (s : String) : String :=
  String.mk (rustTrimChars s.data)

/-- Models Rust `str::to_lowercase` on a single character, restricted to the
ASCII and Cyrillic ranges that occur in the brokerage statements (simple
one-to-one Unicode lowercase mapping on those ranges, identity elsewhere). -/
def rustLowerChar (c : Char) : Char :=
  if 0x41 ≤ c.toNat && c.toNat ≤ 0x5A then Char.ofNat (c.toNat + 32)
  else if 0x410 ≤ c.toNat && c.toNat ≤ 0x42F then Char.ofNat (c.toNat + 32)
  else if c.toNat = 0x401 then Char.ofNat 0x451
  else c

/-- Rust `str::to_lowercase` (see `rustLowerChar` for the modelled ranges). -/
def rustLower (s : String) : String :=
  String.mk (s.data.map rustLowerChar)

/-- Substring test on character lists: does `pat` occur contiguously in the
haystack?  Models Rust `str::contains` with a literal pattern. -/
def hasSubstr (pat : List Char) : List Char → Bool
  | [] => pat.isEmpty
  | c :: t => pat.isPrefixOf (c :: t) || hasSubstr pat t

/-- Rust `haystack.contains(pattern)` for literal string patterns. -/
def strContains (hay pat : String) : Bool :=
  hasSubstr pat.data hay.data

/-! ## Error type (`src/error.rs`)

`ReportError` mirrors the Rust enum; the `Io` payload (an OS error) and the
`&'static str` column/field names are modelled as `String`s. -/

/-- Errors of parsing and aggregation, mirroring `ReportError` in
`src/error.rs`. -/
inductive ReportError where
  | io : ReportError
  | html (msg : String) : ReportError
  | tableNotFound (table : String) : ReportError
  | number (value : String) (column : String) : ReportError
  | date (value : String) : ReportError
  | missingField (field : String) : ReportError
  | regex (text : String) : ReportError
deriving DecidableEq, Repr

/-- Money values: `rust_decimal::Decimal` modelled as exact rationals. -/
abbrev Money : Type := ℚ

deriving instance DecidableEq for Except

/-! ## Decimal parsing (`rust_decimal::Decimal::from_str`)

Modelled per the specification of the number format (sign, digits, at most
one decimal separator, at least one digit); the 96-bit mantissa bound and
the scale-28 bound of the concrete library are not modelled, as no claim
depends on them. -/

/-- Scans digits and at most one decimal point, accumulating the mantissa
and the number of fractional digits; fails on any other character or when
no digit was seen. -/
def decScan : List Char → Bool → Nat → Nat → Nat → Option (Nat × Nat)
  | [], _, mant, scale, nd => if nd = 0 then none else some (mant, scale)
  | c :: cs, seenDot, mant, scale, nd =>
    if c.isDigit then
      decScan cs seenDot (10 * mant + (c.toNat - 48))
        (if seenDot then scale + 1 else scale) (nd + 1)
    else if c = '.' then
      if seenDot then none else decScan cs true mant scale nd
    else none

/-- Syntactic part of `Decimal::from_str`: optional sign, then digits with
at most one decimal point; returns the signed mantissa and the scale. -/
def parseDecimalParts (s : String) : Option (Int × Nat) :=
  let core : List Char → Int → Option (Int × Nat) := fun cs sign =>
    match decScan cs false 0 0 0 with
    | some (mant, scale) => some (sign * (mant : Int), scale)
    | none => none
  match s.data with
  | [] => none
  | c :: rest =>
    if c = '-' then core rest (-1)
    else if c = '+' then core rest 1
    else core s.data 1

/-- Models `Decimal::from_str`: the parsed value is the signed mantissa
over the corresponding power of ten. -/
def parseDecimal (s : String) : Option Money :=
  (parseDecimalParts s).map (fun p => (p.1 : ℚ) / ((10 : ℚ) ^ p.2))

/-! ## Number normalization and money parsing (`src/utils.rs`) -/

/-- Characters removed everywhere by `normalize_number`: plain space,
no-break space, narrow no-break space and the plus sign. -/
def isRemovedChar (c : Char) : Bool :=
  c = ' ' || c = ' ' || c = ' ' || c = '+'

/-- Embedding of `normalize_number` (`src/utils.rs:31`): filter out the
removed characters, then trim the remaining whitespace at both ends. -/
def normalize_number (s : String) : String :=
  rustTrim (String.mk (s.data.filter (fun c => !(isRemovedChar c))))

/-- Embedding of `parse_money_or_zero` (`src/utils.rs:41`): empty after
normalization means exact zero, otherwise the normalized text must parse
as a decimal, else a `Number` error carrying the trimmed original text. -/
def parse_money_or_zero (value : String) (column : String) :
    Except ReportError Money :=
  let normalized := normalize_number value
  if normalized = "" then .ok 0
  else
    match parseDecimal normalized with
    | some d => .ok d
    | none => .error (.number (rustTrim value) column)

/-- The normalization written exactly as the specification words it: remove
the three space characters anywhere and a single leading plus sign only
(spec, section 4.2; for comparison with `normalize_number`). -/
def specNormalizeNumber (s : String) : String :=
  let noSpaces := s.data.filter
    (fun c => !(c = ' ' || c = ' ' || c = ' '))
  match noSpaces with
  | '+' :: rest => String.mk rest
  | cs => String.mk cs

/-! ## Date parsing (`src/utils.rs:53`, chrono `%d.%m.%Y`)

The chrono parser for the fixed format `%d.%m.%Y` is modelled faithfully:
each numeric item first skips leading whitespace, then consumes one to
`width` digits (width 2 for day and month, width 4 for the year, unbounded
when the year carries an explicit sign); the literal dots must match
exactly; the whole input must be consumed; the resolved triple must be a
valid proleptic Gregorian calendar date in the chrono year range. -/

/-- Consumes up to `max` further digit characters, extending accumulator
`acc`; returns the value read and the remaining input. -/
def scanDigits : Nat → Nat → List Char → Nat × List Char
  | 0, acc, cs => (acc, cs)
  | _ + 1, acc, [] => (acc, [])
  | m + 1, acc, c :: rest =>
    if c.isDigit then scanDigits m (10 * acc + (c.toNat - 48)) rest
    else (acc, c :: rest)

/-- Models chrono `scan::number(s, 1, max)`: at least one digit, at most
`max` digits. -/
def scanNumber (cs : List Char) (max : Nat) : Option (Nat × List Char) :=
  match cs with
  | c :: rest =>
    if c.isDigit then some (scanDigits (max - 1) (c.toNat - 48) rest) else none
  | [] => none

/-- Is the proleptic Gregorian year a leap year? -/
def isLeapYear (y : Int) : Bool :=
  y % 4 = 0 && (y % 100 ≠ 0 || y % 400 = 0)

/-- Day count of a month in the proleptic Gregorian calendar. -/
def daysInMonth (y : Int) (m : Nat) : Nat :=
  if m = 2 then (if isLeapYear y then 29 else 28)
  else if m = 4 || m = 6 || m = 9 || m = 11 then 30
  else 31

/-- Valid chrono calendar date: month and day in range for the year, year
inside the chrono `NaiveDate` year range. -/
def chronoValidYmd (y : Int) (m d : Nat) : Bool :=
  1 ≤ m && m ≤ 12 && 1 ≤ d && d ≤ daysInMonth y m &&
  -262144 ≤ y && y ≤ 262143

/-- Matches the literal dot of the format string, as a chrono literal item. -/
def expectDot : List Char → Option (List Char)
  | '.' :: rest => some rest
  | _ => none

/-- Models the chrono numeric year item of `%Y`: an optional explicit sign
followed by digits (at most four without a sign, unbounded with one). -/
def scanYear (cs : List Char) : Option (Int × List Char) :=
  match cs with
  | c :: cs6 =>
    if c = '-' then
      (scanNumber cs6 cs6.length).map (fun yc => (-(yc.1 : Int), yc.2))
    else if c = '+' then
      (scanNumber cs6 cs6.length).map (fun yc => ((yc.1 : Int), yc.2))
    else
      (scanNumber (c :: cs6) 4).map (fun yc => ((yc.1 : Int), yc.2))
  | [] => none

/-- Parses `day.month.year` from a character list as chrono does for the
format `%d.%m.%Y` (whitespace may precede each numeric item), requiring
the whole input to be consumed. -/
def parseDMYChars (cs : List Char) : Option (Int × Nat × Nat) :=
  (scanNumber (cs.dropWhile isRustWhitespace) 2).bind fun dc =>
    (expectDot dc.2).bind fun cs2 =>
      (scanNumber (cs2.dropWhile isRustWhitespace) 2).bind fun mc =>
        (expectDot mc.2).bind fun cs4 =>
          (scanYear (cs4.dropWhile isRustWhitespace)).bind fun yc =>
            if yc.2 = [] then some (yc.1, mc.1, dc.1) else none

/-- Calendar dates as chrono `NaiveDate` (year, month, day). -/
structure NaiveDate where
  year : Int
  month : Nat
  day : Nat
deriving DecidableEq, Repr

/-- Embedding of `parse_date` (`src/utils.rs:53`): trim, parse with the
chrono model for `%d.%m.%Y`, validate the calendar date; all failures are
a `Date` error carrying the trimmed text. -/
def parse_date (value : String) : Except ReportError NaiveDate :=
  let t := rustTrim value
  match parseDMYChars t.data with
  | some (y, m, d) =>
    if chronoValidYmd y m d then .ok ⟨y, m, d⟩ else .error (.date t)
  | none => .error (.date t)

/-- Strict `dd.mm.yyyy` shape: exactly two digit characters, a dot, two
digit characters, a dot and four digit characters (the shape named by the
date claim). -/
def isStrictDMY (s : String) : Bool :=
  match s.data with
  | [d1, d2, p1, m1, m2, p2, y1, y2, y3, y4] =>
    d1.isDigit && d2.isDigit && p1 = '.' && m1.isDigit && m2.isDigit &&
    p2 = '.' && y1.isDigit && y2.isDigit && y3.isDigit && y4.isDigit
  | _ => false

/-- ASCII digit character of a decimal digit. -/
def decDigitChar (n : Nat) : Char := Char.ofNat (48 + n)

/-- Two-digit zero-padded decimal representation as characters. -/
def twoDigitChars (n : Nat) : List Char :=
  [decDigitChar (n / 10), decDigitChar (n % 10)]

/-- Four-digit zero-padded decimal representation as characters. -/
def fourDigitChars (n : Nat) : List Char :=
  [decDigitChar (n / 1000), decDigitChar (n / 100 % 10),
   decDigitChar (n / 10 % 10), decDigitChar (n % 10)]

/-- The strict `dd.mm.yyyy` rendering of a (day, month, year) triple. -/
def strictDMYString (d m y : Nat) : String :=
  String.mk (twoDigitChars d ++ '.' :: twoDigitChars m ++ '.' :: fourDigitChars y)

/-! ## Table locator (`src/utils.rs:73`) -/

/-- A table row: the text-collected cell strings of its `td`/`th`
elements. -/
abbrev TableRow : Type := List String

/-- A table: its `tr` rows in document order. -/
abbrev HtmlTable : Type := List TableRow

/-- Does one header row contain every required phrase as a substring of
some cell? -/
def rowHasHeaders (required : List String) (row : TableRow) : Bool :=
  required.all (fun target => row.any (fun h => strContains h target))

/-- Does some single row among the first `depth` rows of the table contain
all required phrases? -/
def tableHasHeaders (required : List String) (depth : Nat)
    (table : HtmlTable) : Bool :=
  (table.take depth).any (rowHasHeaders required)

/-- Embedding of `find_table_with_headers` (`src/utils.rs:73`): the first
table in document order one of whose first `depth` header rows contains
every required phrase by substring match; the depth defaults to 1. -/
def find_table_with_headers (doc : List HtmlTable)
    (required_headers : List String) (custom_header_depth : Option Nat) :
    Option HtmlTable :=
  let header_depth := custom_header_depth.getD 1
  doc.find? (tableHasHeaders required_headers header_depth)

/-- The matching condition of the locator, spelled as a proposition: some
single row among the first `depth` rows carries every phrase. -/
def TableMatchesSpec (required : List String) (depth : Nat)
    (t : HtmlTable) : Prop :=
  ∃ row ∈ t.take depth, ∀ phrase ∈ required,
    ∃ cell ∈ row, strContains cell phrase = true

/-! ## Domain types (`src/types.rs`) -/

/-- Account identifier (contract number). -/
structure AccountId where
  id : String
deriving DecidableEq, Repr

/-- Account kind: ordinary brokerage or individual investment account. -/
inductive AccountKind where
  | broker : AccountKind
  | iis : AccountKind
deriving DecidableEq, Repr

/-- Report metadata: header, period and owner. -/
structure ReportMetadata where
  account_id : AccountId
  account_kind : AccountKind
  period_start : NaiveDate
  period_end : NaiveDate
  generated_at : NaiveDate
  investor_name : String
  contract_number : String
deriving DecidableEq, Repr

/-- One row of the asset valuation table. -/
structure AssetValuationRow where
  venue : String
  start_securities : Money
  start_cash : Money
  start_total : Money
  end_securities : Money
  end_cash : Money
  end_total : Money
  delta_securities : Money
  delta_cash : Money
  delta_total : Money
deriving DecidableEq, Repr

/-- The asset valuation section: rows plus the total delta. -/
structure AssetValuation where
  rows : List AssetValuationRow
  total_delta : Money
deriving DecidableEq, Repr

/-- Kind of a cash-flow summary row, in the declaration order that also
fixes the derived `Ord` used by the merge. -/
inductive CashFlowKind where
  | openingBalance : CashFlowKind
  | tradesNet : CashFlowKind
  | corporateActions : CashFlowKind
  | brokerFee : CashFlowKind
  | exchangeFee : CashFlowKind
  | closingBalance : CashFlowKind
  | unknown : CashFlowKind
deriving DecidableEq, Repr

/-- One row of the cash-flow summary. -/
structure CashFlowRow where
  kind : CashFlowKind
  description_raw : String
  amount : Money
  currency : String
deriving DecidableEq, Repr

/-- The cash-flow summary section. -/
structure CashFlowSummary where
  rows : List CashFlowRow
deriving DecidableEq, Repr

/-- A security position at period start and end. -/
structure SecurityPosition where
  name : String
  isin : String
  price_currency : String
  qty_start : Money
  nominal_start : Money
  price_start : Money
  value_start_no_ai : Money
  accrued_interest_start : Money
  qty_end : Money
  nominal_end : Money
  price_end : Money
  value_end_no_ai : Money
  accrued_interest_end : Money
  qty_delta : Money
  value_delta : Money
  planned_in_qty : Money
  planned_out_qty : Money
  planned_end_qty : Money
deriving DecidableEq, Repr

/-- The positions of one trading venue. -/
structure PortfolioMarket where
  name : String
  positions : List SecurityPosition
deriving DecidableEq, Repr

/-- The securities portfolio section. -/
structure Portfolio where
  markets : List PortfolioMarket
deriving DecidableEq, Repr

/-- One row of the IIS contributions table. -/
structure IisContribution where
  year : Int
  limit_rub : Money
  date : NaiveDate
  amount : Money
  operation_reason : String
  remaining_limit : Money
deriving DecidableEq, Repr

/-- The IIS contributions section. -/
structure IisContributionsTable where
  rows : List IisContribution
deriving DecidableEq, Repr

/-- A position aggregated over several reports, keyed by ISIN. -/
structure MergedPosition where
  isin : String
  name : String
  price_currency : String
  qty_start : Money
  qty_end : Money
  value_start_no_ai : Money
  value_end_no_ai : Money
  qty_delta : Money
  value_delta : Money
deriving DecidableEq, Repr

/-! ## Report assembly (`src/report.rs`) -/

/-- Flags choosing which tables to load. -/
structure ParseOptions where
  load_asset_valuation : Bool
  load_cash_flow : Bool
  load_portfolio : Bool
  load_iis_contributions : Bool
deriving DecidableEq, Repr

/-- All tables enabled (`ParseOptions::everything`). -/
def ParseOptions.everything : ParseOptions := ⟨true, true, true, true⟩

/-- Only metadata (`ParseOptions::meta_only`). -/
def ParseOptions.meta_only : ParseOptions := ⟨false, false, false, false⟩

/-- The final model of one report. -/
structure Report where
  meta : ReportMetadata
  asset_valuation : Option AssetValuation
  cash_flow_summary : Option CashFlowSummary
  portfolio : Option Portfolio
  iis_contributions : Option IisContributionsTable
deriving DecidableEq, Repr

/-- Abstraction of one parsed document (`DomReport`) as the results its
five extractor methods (`meta` and the four section parsers of
`src/parser.rs`) return on it; `Report::parse_with_options` consumes the
document only through these five calls. -/
structure DomOutcome where
  metaResult : Except ReportError ReportMetadata
  assetValuationResult : Except ReportError AssetValuation
  cashFlowResult : Except ReportError CashFlowSummary
  portfolioResult : Except ReportError Portfolio
  iisContributionsResult : Except ReportError IisContributionsTable

/-- Embedding of `parse_optional` (`src/report.rs:159`): a disabled loader
yields `none`; a `TableNotFound` failure is recovered as `none`; any other
failure propagates. -/
def parse_optional {T : Type} (enabled : Bool)
    (loader : Except ReportError T) : Except ReportError (Option T) :=
  if !enabled then .ok none
  else
    match loader with
    | .ok value => .ok (some value)
    | .error (.tableNotFound _) => .ok none
    | .error err => .error err

/-- Embedding of `Report::parse_with_options` (`src/report.rs:70`): first
the metadata, then the four optional sections in order, each `?`-style
failure aborting the whole parse. -/
def Report.parse_with_options (dom : DomOutcome) (options : ParseOptions) :
    Except ReportError Report :=
  dom.metaResult.bind fun meta =>
    (parse_optional options.load_asset_valuation
        dom.assetValuationResult).bind fun asset_valuation =>
      (parse_optional options.load_cash_flow dom.cashFlowResult).bind
        fun cash_flow_summary =>
        (parse_optional options.load_portfolio dom.portfolioResult).bind
          fun portfolio =>
          (parse_optional options.load_iis_contributions
              dom.iisContributionsResult).bind fun iis_contributions =>
            .ok { meta, asset_valuation, cash_flow_summary, portfolio,
                  iis_contributions }

/-- A loader result the report assembly can always absorb: success, or the
dedicated table-not-found failure. -/
def RecoverableResult {T : Type} (r : Except ReportError T) : Prop :=
  (∃ v, r = .ok v) ∨ (∃ t, r = .error (.tableNotFound t))

/-! ## Asset valuation extractor (`src/parser.rs:108`)

The extractor is embedded over the cell-level table (list of rows of cell
strings); locating the `table.RatingAssets` element itself is part of the
external HTML layer. -/

/-- Is this a summary row: a nonempty row whose first cell, lowercased,
contains the phrase `итого`? -/
def isSummaryRow (cells : TableRow) : Bool :=
  match cells with
  | [] => false
  | c0 :: _ => strContains (rustLower c0) "итого"

/-- Decodes the ten positional fields of one valuation data row
(`src/parser.rs:140`); only called on rows of at least ten cells. -/
def parseValuationRow (cells : TableRow) :
    Except ReportError AssetValuationRow :=
  (parse_money_or_zero (cells.getD 1 "") "ЦБ начало").bind
    fun start_securities =>
  (parse_money_or_zero (cells.getD 2 "") "Денежные средства начало").bind
    fun start_cash =>
  (parse_money_or_zero (cells.getD 3 "") "Всего начало").bind
    fun start_total =>
  (parse_money_or_zero (cells.getD 4 "") "ЦБ конец").bind
    fun end_securities =>
  (parse_money_or_zero (cells.getD 5 "") "Денежные средства конец").bind
    fun end_cash =>
  (parse_money_or_zero (cells.getD 6 "") "Всего конец").bind
    fun end_total =>
  (parse_money_or_zero (cells.getD 7 "") "ЦБ изменение").bind
    fun delta_securities =>
  (parse_money_or_zero (cells.getD 8 "") "Денежные средства изменение").bind
    fun delta_cash =>
  (parse_money_or_zero (cells.getD 9 "") "Всего изменение").bind
    fun delta_total =>
  .ok { venue := cells.getD 0 "", start_securities, start_cash, start_total,
        end_securities, end_cash, end_total, delta_securities, delta_cash,
        delta_total }

/-- The row loop of `parse_asset_valuation`, carrying the enumeration
index (rows with index below three are the header), the accumulated data
rows, the running total delta and the summary-seen flag. -/
def avLoop : Nat → List AssetValuationRow → Money → Bool → List TableRow →
    Except ReportError (List AssetValuationRow × Money × Bool)
  | _, acc, total, seen, [] => .ok (acc, total, seen)
  | idx, acc, total, seen, cells :: rest =>
    if idx < 3 then avLoop (idx + 1) acc total seen rest
    else if cells.isEmpty then avLoop (idx + 1) acc total seen rest
    else if isSummaryRow cells then
      (parse_money_or_zero (cells.getLastD "") "Итого").bind
        fun v => avLoop (idx + 1) acc v true rest
    else if cells.length < 10 then
      avLoop (idx + 1) acc total seen rest
    else
      (parseValuationRow cells).bind fun row =>
        avLoop (idx + 1) (acc ++ [row]) total seen rest

/-- The same loop without the index, entered once the three header rows
have been dropped (used to state and prove its specification). -/
def avBody : List AssetValuationRow → Money → Bool → List TableRow →
    Except ReportError (List AssetValuationRow × Money × Bool)
  | acc, total, seen, [] => .ok (acc, total, seen)
  | acc, total, seen, cells :: rest =>
    if cells.isEmpty then avBody acc total seen rest
    else if isSummaryRow cells then
      (parse_money_or_zero (cells.getLastD "") "Итого").bind
        fun v => avBody acc v true rest
    else if cells.length < 10 then
      avBody acc total seen rest
    else
      (parseValuationRow cells).bind fun row =>
        avBody (acc ++ [row]) total seen rest

/-- Embedding of `parse_asset_valuation` (`src/parser.rs:108`) over the
located table: run the row loop, then, when no summary row was seen, fold
the row deltas into the total. -/
def parse_asset_valuation (trs : List TableRow) :
    Except ReportError AssetValuation :=
  (avLoop 0 [] 0 false trs).bind fun r =>
    .ok { rows := r.1,
          total_delta :=
            if r.2.2 then r.2.1
            else (r.1.map (·.delta_total)).foldl (· + ·) 0 }

/-- A data row of the valuation table: nonempty, not a summary row, and
carrying at least ten cells. -/
def avIsDataRow (cells : TableRow) : Bool :=
  !cells.isEmpty && !isSummaryRow cells && decide (cells.length ≥ 10)

/-- Sequential decoding of a list of data rows, the first failure aborting
(specification companion of the loop). -/
def parseRowsSpec : List TableRow → Except ReportError (List AssetValuationRow)
  | [] => .ok []
  | r :: rest =>
    (parseValuationRow r).bind fun row =>
      (parseRowsSpec rest).bind fun rows => .ok (row :: rows)

/-! ## IIS contributions extractor (`src/parser.rs:278`) -/

/-- Models Rust `str::parse::<i32>`: an optional sign followed by one or
more ASCII digits, the value fitting a 32-bit signed integer. -/
def parseI32 (s : String) : Option Int :=
  let signed : Int × List Char :=
    match s.data with
    | '+' :: rest => (1, rest)
    | '-' :: rest => (-1, rest)
    | cs => (1, cs)
  if signed.2 = [] then none
  else if signed.2.all (·.isDigit) then
    let v : Int := signed.1 *
      (signed.2.foldl (fun acc c => 10 * acc + (c.toNat - 48)) 0 : Nat)
    if -2147483648 ≤ v ∧ v ≤ 2147483647 then some v else none
  else none

/-- Models Rust `Option::ok_or`: the value, or the given error. -/
def optionOkOr {T : Type} (o : Option T) (e : ReportError) :
    Except ReportError T :=
  match o with
  | some v => .ok v
  | none => .error e

/-- The year-cell step of one contributions row: a non-blank first cell
must parse as an integer year and replaces the running year. -/
def iisYearStep (c0 : String) (curYear : Option Int) :
    Except ReportError (Option Int) :=
  if c0 = "" then .ok curYear
  else
    match parseI32 (rustTrim c0) with
    | some y => .ok (some y)
    | none => .error (.number c0 "Год")

/-- The limit-cell step of one contributions row: a non-blank second cell
updates the running limit, the sentinel `ограничений нет` meaning zero. -/
def iisLimitStep (c1 : String) (curLimit : Option Money) :
    Except ReportError (Option Money) :=
  if c1 = "" then .ok curLimit
  else if strContains (rustLower c1) "ограничений нет" then .ok (some 0)
  else (parse_money_or_zero c1 "Лимит ИИС").map some

/-- Decoding of the remaining-limit cell, with the same sentinel. -/
def iisRemainingStep (c5 : String) : Except ReportError Money :=
  if strContains (rustLower c5) "ограничений нет" then .ok 0
  else parse_money_or_zero c5 "Остаток лимита"

/-- The row loop of `parse_iis_contributions`, carrying the enumeration
index, the sticky year and limit state, and the accumulated rows. -/
def iisLoop : Nat → Option Int → Option Money → List IisContribution →
    List TableRow → Except ReportError (List IisContribution)
  | _, _, _, acc, [] => .ok acc
  | idx, curYear, curLimit, acc, cells :: rest =>
    if idx < 3 then iisLoop (idx + 1) curYear curLimit acc rest
    else if cells.length < 6 then iisLoop (idx + 1) curYear curLimit acc rest
    else if cells.all (· = "") then iisLoop (idx + 1) curYear curLimit acc rest
    else
      (iisYearStep (cells.getD 0 "") curYear).bind fun curYear' =>
        (iisLimitStep (cells.getD 1 "") curLimit).bind fun curLimit' =>
          if cells.getD 2 "" = "" then
            iisLoop (idx + 1) curYear' curLimit' acc rest
          else
            (optionOkOr curYear' (.missingField "Год")).bind fun year =>
              (parse_date (cells.getD 2 "")).bind fun date =>
                (parse_money_or_zero (cells.getD 3 "") "Сумма ИИС").bind
                  fun amount =>
                  (iisRemainingStep (cells.getD 5 "")).bind
                    fun remaining_limit =>
                    iisLoop (idx + 1) curYear' curLimit'
                      (acc ++ [{ year, limit_rub := curLimit'.getD 0, date,
                                 amount,
                                 operation_reason := cells.getD 4 "",
                                 remaining_limit }]) rest

/-- The same loop without the index, entered after the three header rows
(specification companion). -/
def iisBody : Option Int → Option Money → List IisContribution →
    List TableRow → Except ReportError (List IisContribution)
  | _, _, acc, [] => .ok acc
  | curYear, curLimit, acc, cells :: rest =>
    if cells.length < 6 then iisBody curYear curLimit acc rest
    else if cells.all (· = "") then iisBody curYear curLimit acc rest
    else
      (iisYearStep (cells.getD 0 "") curYear).bind fun curYear' =>
        (iisLimitStep (cells.getD 1 "") curLimit).bind fun curLimit' =>
          if cells.getD 2 "" = "" then
            iisBody curYear' curLimit' acc rest
          else
            (optionOkOr curYear' (.missingField "Год")).bind fun year =>
              (parse_date (cells.getD 2 "")).bind fun date =>
                (parse_money_or_zero (cells.getD 3 "") "Сумма ИИС").bind
                  fun amount =>
                  (iisRemainingStep (cells.getD 5 "")).bind
                    fun remaining_limit =>
                    iisBody curYear' curLimit'
                      (acc ++ [{ year, limit_rub := curLimit'.getD 0, date,
                                 amount,
                                 operation_reason := cells.getD 4 "",
                                 remaining_limit }]) rest

/-- Embedding of `parse_iis_contributions` (`src/parser.rs:278`) over the
located table. -/
def parse_iis_contributions (trs : List TableRow) :
    Except ReportError IisContributionsTable :=
  (iisLoop 0 none none [] trs).bind fun rows => .ok ⟨rows⟩

/-- A row the contributions loop keeps processing (at least six cells, not
all blank); shorter or fully blank rows are skipped. -/
def iisKeptRow (cells : TableRow) : Bool :=
  decide (cells.length ≥ 6) && !(cells.all (· = ""))

/-- Pairs every row with its inclusive prefix within the processed rows. -/
def withPrefixAux (pre : List TableRow) :
    List TableRow → List (TableRow × List TableRow)
  | [] => []
  | r :: rest => (r, pre ++ [r]) :: withPrefixAux (pre ++ [r]) rest

/-- Every processed row paired with the processed rows up to and including
it, in order. -/
def withPrefixRows (l : List TableRow) : List (TableRow × List TableRow) :=
  withPrefixAux [] l

/-- The most recent non-blank cell at position `i` among a prefix of
processed rows (the sticky-state source of the specification). -/
def lastNonEmptyCell (i : Nat) (pre : List TableRow) : Option String :=
  ((pre.map (fun r => r.getD i "")).filter (· ≠ "")).getLast?

/-- What the specification demands of one emitted contributions row `out`,
produced from processed row `r` whose inclusive processed prefix is `pre`:
the year comes from the most recent non-blank year cell, the limit from the
most recent non-blank limit cell (sentinel meaning zero, absence meaning
zero), and the remaining fields decode the cells of `r` itself. -/
def RowSpec (r : TableRow) (pre : List TableRow)
    (out : IisContribution) : Prop :=
  (∃ ys, lastNonEmptyCell 0 pre = some ys ∧
    parseI32 (rustTrim ys) = some out.year) ∧
  ((∃ ls, lastNonEmptyCell 1 pre = some ls ∧
      ((strContains (rustLower ls) "ограничений нет" = true ∧
        out.limit_rub = 0) ∨
       (strContains (rustLower ls) "ограничений нет" = false ∧
        parse_money_or_zero ls "Лимит ИИС" = .ok out.limit_rub))) ∨
    (lastNonEmptyCell 1 pre = none ∧ out.limit_rub = 0)) ∧
  parse_date (r.getD 2 "") = .ok out.date ∧
  parse_money_or_zero (r.getD 3 "") "Сумма ИИС" = .ok out.amount ∧
  out.operation_reason = r.getD 4 "" ∧
  iisRemainingStep (r.getD 5 "") = .ok out.remaining_limit

/-- Invariant tying the running year state to the processed prefix. -/
def YearInv (pre : List TableRow) (cur : Option Int) : Prop :=
  (lastNonEmptyCell 0 pre = none → cur = none) ∧
  (∀ ys, lastNonEmptyCell 0 pre = some ys →
    ∃ y, parseI32 (rustTrim ys) = some y ∧ cur = some y)

/-- Invariant tying the running limit state to the processed prefix. -/
def LimitInv (pre : List TableRow) (cur : Option Money) : Prop :=
  (lastNonEmptyCell 1 pre = none → cur = none) ∧
  (∀ ls, lastNonEmptyCell 1 pre = some ls →
    ∃ v, cur = some v ∧
      ((strContains (rustLower ls) "ограничений нет" = true ∧ v = 0) ∨
       (strContains (rustLower ls) "ограничений нет" = false ∧
        parse_money_or_zero ls "Лимит ИИС" = .ok v)))

/-! ## Aggregation engine (`src/report_set.rs`)

A `BTreeMap` is modelled as an association list strictly sorted by key;
`btInsert` implements `entry(key).or_insert(init)` followed by an in-place
update, and iteration in ascending key order is the list order itself. -/

/-- Insert-or-update into a key-sorted association list: find the slot of
`k` by the strict order `ltb`; an absent key inserts `upd init`, a present
key replaces its value `v` by `upd v`. -/
def btInsert {K V : Type} [DecidableEq K] (ltb : K → K → Bool) (k : K)
    (init : V) (upd : V → V) : List (K × V) → List (K × V)
  | [] => [(k, upd init)]
  | (k', v) :: rest =>
    if ltb k k' then (k, upd init) :: (k', v) :: rest
    else if k = k' then (k', upd v) :: rest
    else (k', v) :: btInsert ltb k init upd rest

/-- Lookup by key in an association list. -/
def btLookup {K V : Type} [DecidableEq K] (k : K) (l : List (K × V)) :
    Option V :=
  (l.find? (fun p => p.1 = k)).map (·.2)

/-- The keys are strictly ascending. -/
def btSorted {K V : Type} (ltb : K → K → Bool) (l : List (K × V)) : Prop :=
  l.Pairwise (fun a b => ltb a.1 b.1 = true)

/-- The laws of a strict total order given as a boolean comparison. -/
structure LtbLaws {K : Type} (ltb : K → K → Bool) : Prop where
  irrefl : ∀ a, ltb a a = false
  trans : ∀ a b c, ltb a b = true → ltb b c = true → ltb a c = true
  total : ∀ a b, ltb a b = false → a ≠ b → ltb b a = true

/-- The grouping key of the cash-flow merge. -/
def cfKey (r : CashFlowRow) : CashFlowKind × String := (r.kind, r.currency)

/-- Position of a `CashFlowKind` in its declaration order (the derived
Rust `Ord`). -/
def CashFlowKind.toNat : CashFlowKind → Nat
  | .openingBalance => 0
  | .tradesNet => 1
  | .corporateActions => 2
  | .brokerFee => 3
  | .exchangeFee => 4
  | .closingBalance => 5
  | .unknown => 6

/-- The derived lexicographic `Ord` on `(CashFlowKind, String)`: kind in
declaration order first, then the string order. -/
def cfKeyLtb (a b : CashFlowKind × String) : Bool :=
  decide (a.1.toNat < b.1.toNat) ||
    (decide (a.1.toNat = b.1.toNat) && decide (a.2 < b.2))

/-- One `BTreeMap` update of the cash-flow merge
(`src/report_set.rs:88`): group by (kind, currency), start a group at
`(ZERO, description)` and add the amount. -/
def cfStep (m : List ((CashFlowKind × String) × Money × String))
    (row : CashFlowRow) :
    List ((CashFlowKind × String) × Money × String) :=
  btInsert cfKeyLtb (cfKey row) (0, row.description_raw)
    (fun e => (e.1 + row.amount, e.2)) m

/-- The cash-flow rows a report contributes to the merge. -/
def cfRows (r : Report) : List CashFlowRow :=
  match r.cash_flow_summary with
  | some summary => summary.rows
  | none => []

/-- Embedding of `ReportSet::merge_cash_flows` (`src/report_set.rs:83`):
fold every row of every report into the map, then read the map out in
ascending key order. -/
def mergeCashFlows (reports : List Report) : CashFlowSummary :=
  let m := reports.foldl (fun acc r => (cfRows r).foldl cfStep acc) []
  ⟨m.map (fun e => ⟨e.1.1, e.2.2, e.2.1, e.1.2⟩)⟩

/-- The exact sum of the amounts of the rows with a given group key. -/
def cfSumFor (k : CashFlowKind × String) (rows : List CashFlowRow) : Money :=
  ((rows.filter (fun r => cfKey r = k)).map (·.amount)).sum

/-- The string order used for the ISIN-keyed position merge. -/
def posKeyLtb (a b : String) : Bool := decide (a < b)

/-- Adds the six summed numeric fields of a position into a merged
accumulator (`src/report_set.rs:144`). -/
def mpAdd (e : MergedPosition) (p : SecurityPosition) : MergedPosition :=
  { e with qty_start := e.qty_start + p.qty_start,
           qty_end := e.qty_end + p.qty_end,
           value_start_no_ai := e.value_start_no_ai + p.value_start_no_ai,
           value_end_no_ai := e.value_end_no_ai + p.value_end_no_ai,
           qty_delta := e.qty_delta + p.qty_delta,
           value_delta := e.value_delta + p.value_delta }

/-- The zero-valued accumulator a first occurrence creates
(`src/report_set.rs:132`): name and currency from that occurrence. -/
def mpInit (p : SecurityPosition) : MergedPosition :=
  ⟨p.isin, p.name, p.price_currency, 0, 0, 0, 0, 0, 0⟩

/-- One `BTreeMap` update of the position merge. -/
def posStep (m : List (String × MergedPosition)) (p : SecurityPosition) :
    List (String × MergedPosition) :=
  btInsert posKeyLtb p.isin (mpInit p) (fun e => mpAdd e p) m

/-- The positions a single report contributes, in market order. -/
def posList (r : Report) : List SecurityPosition :=
  match r.portfolio with
  | some pf => pf.markets.foldl (fun acc mk => acc ++ mk.positions) []
  | none => []

/-- Embedding of `ReportSet::merge_positions` (`src/report_set.rs:113`):
fold every position of every market of every report into the ISIN-keyed
map, then return the values in ascending key order. -/
def mergePositions (reports : List Report) : List MergedPosition :=
  let m := reports.foldl (fun acc r =>
    match r.portfolio with
    | some pf =>
      pf.markets.foldl (fun acc2 mk => mk.positions.foldl posStep acc2) acc
    | none => acc) []
  m.map (·.2)

/-- Accumulator after absorbing a list of positions field-wise. -/
def mpAddSum (e : MergedPosition) (l : List SecurityPosition) :
    MergedPosition :=
  { e with qty_start := e.qty_start + (l.map (·.qty_start)).sum,
           qty_end := e.qty_end + (l.map (·.qty_end)).sum,
           value_start_no_ai :=
             e.value_start_no_ai + (l.map (·.value_start_no_ai)).sum,
           value_end_no_ai :=
             e.value_end_no_ai + (l.map (·.value_end_no_ai)).sum,
           qty_delta := e.qty_delta + (l.map (·.qty_delta)).sum,
           value_delta := e.value_delta + (l.map (·.value_delta)).sum }

/-! ## Concrete fixtures used by witnesses -/

/-- A sample metadata record. -/
def sampleMeta : ReportMetadata :=
  { account_id := ⟨"100ABC"⟩, account_kind := .broker,
    period_start := ⟨2024, 1, 1⟩, period_end := ⟨2024, 3, 31⟩,
    generated_at := ⟨2024, 4, 1⟩, investor_name := "Петр Петров",
    contract_number := "100ABC" }

/-- A sample document outcome: valid metadata, three loadable sections and
a portfolio table that is missing. -/
def sampleDom : DomOutcome :=
  { metaResult := .ok sampleMeta,
    assetValuationResult := .ok ⟨[], 0⟩,
    cashFlowResult := .ok ⟨[]⟩,
    portfolioResult := .error (.tableNotFound "Portfolio"),
    iisContributionsResult := .ok ⟨[]⟩ }

/-- A small valuation table: three header rows, one blank-valued data row
and a summary row whose blank last cell reads as zero. -/
def sampleValuationTable : List TableRow :=
  [[], [], [], ["V", "", "", "", "", "", "", "", "", ""], ["итого", ""]]

/-- The valuation produced from `sampleValuationTable`. -/
def sampleValuation : AssetValuation :=
  ⟨[⟨"V", 0, 0, 0, 0, 0, 0, 0, 0, 0⟩], 0⟩

/-- A small contributions table: three header rows, a first data row with
year and the no-limit sentinel, and a second data row with blank year and
limit cells that inherits both. -/
def sampleContribTable : List TableRow :=
  [[], [], [],
   ["2023", "ограничений нет", "15.03.2023", "", "взнос", "ограничений нет"],
   ["", "", "20.06.2023", "", "взнос", "ограничений нет"]]

/-- The contributions parsed from `sampleContribTable`. -/
def sampleContribs : IisContributionsTable :=
  ⟨[⟨2023, 0, ⟨2023, 3, 15⟩, 0, "взнос", 0⟩,
    ⟨2023, 0, ⟨2023, 6, 20⟩, 0, "взнос", 0⟩]⟩

/-- A sample security position. -/
def samplePosition : SecurityPosition :=
  ⟨"ПАО Пример", "RU0001", "RUB",
    0, 0, 0, 0, 0, 0, 0, 0, 0, 0, 0, 0, 0, 0, 0⟩

/-- A sample report whose portfolio holds one position on one venue. -/
def samplePortfolioReport : Report :=
  { meta := sampleMeta, asset_valuation := none, cash_flow_summary := none,
    portfolio := some ⟨[⟨"ФБ СПБ", [samplePosition]⟩]⟩,
    iis_contributions := none }

/-! ## Theorems

Helper lemmas come first, then one theorem per specification claim (with
its witness or counterexample where required). -/

/-! ### Trimming and normalization lemmas -/

lemma mem_rustTrimChars {c : Char} {l : List Char} (h : c ∈ rustTrimChars l) :
    c ∈ l := by
  unfold rustTrimChars at h
  exact (List.dropWhile_suffix _).sublist.subset
    ((List.rdropWhile_prefix _ _).sublist.subset h)

lemma head?_dropWhile_false (p : Char → Bool) (l : List Char) {c : Char}
    (h : (l.dropWhile p).head? = some c) : p c = false := by
  induction l with
  | nil => simp at h
  | cons a t ih =>
    by_cases hpa : p a
    · rw [List.dropWhile_cons_of_pos hpa] at h
      exact ih h
    · rw [List.dropWhile_cons_of_neg hpa] at h
      simp only [List.head?_cons, Option.some.injEq] at h
      subst h
      simpa using hpa

lemma dropWhile_rdropWhile_dropWhile (l : List Char) :
    List.dropWhile isRustWhitespace
      ((List.dropWhile isRustWhitespace l).rdropWhile isRustWhitespace) =
    (List.dropWhile isRustWhitespace l).rdropWhile isRustWhitespace := by
  obtain ⟨t, ht⟩ :=
    List.rdropWhile_prefix isRustWhitespace (List.dropWhile isRustWhitespace l)
  cases hpre : (List.dropWhile isRustWhitespace l).rdropWhile isRustWhitespace with
  | nil => simp
  | cons c cs =>
    rw [hpre] at ht
    have hh : (List.dropWhile isRustWhitespace l).head? = some c := by
      rw [← ht]; simp
    have hc := head?_dropWhile_false isRustWhitespace l hh
    rw [List.dropWhile_cons_of_neg (by simp [hc])]

lemma rustTrimChars_idem (l : List Char) :
    rustTrimChars (rustTrimChars l) = rustTrimChars l := by
  unfold rustTrimChars
  rw [dropWhile_rdropWhile_dropWhile, List.rdropWhile_idempotent]

lemma normalize_number_data (s : String) :
    (normalize_number s).data =
      rustTrimChars ((s.data).filter (fun c => !(isRemovedChar c))) := rfl

lemma normalize_number_idem (s : String) :
    normalize_number (normalize_number s) = normalize_number s := by
  have h : ((normalize_number s).data).filter (fun c => !(isRemovedChar c)) =
      (normalize_number s).data := by
    apply List.filter_eq_self.mpr
    intro c hc
    rw [normalize_number_data] at hc
    simpa using (List.mem_filter.mp (mem_rustTrimChars hc)).2
  calc normalize_number (normalize_number s)
      = rustTrim (String.mk (((normalize_number s).data).filter
          (fun c => !(isRemovedChar c)))) := rfl
    _ = rustTrim (String.mk ((normalize_number s).data)) := by rw [h]
    _ = String.mk (rustTrimChars (rustTrimChars
          ((s.data).filter (fun c => !(isRemovedChar c))))) := rfl
    _ = String.mk (rustTrimChars
          ((s.data).filter (fun c => !(isRemovedChar c)))) := by
        rw [rustTrimChars_idem]
    _ = normalize_number s := rfl

/-! ### Money parsing lemmas -/

lemma parse_money_ok_iff (value column : String) (v : Money) :
    parse_money_or_zero value column = .ok v ↔
      (normalize_number value = "" ∧ v = 0) ∨
      (normalize_number value ≠ "" ∧
        parseDecimal (normalize_number value) = some v) := by
  unfold parse_money_or_zero
  by_cases h : normalize_number value = ""
  · simp [h, eq_comm]
  · cases hp : parseDecimal (normalize_number value) with
    | none => simp [h, hp]
    | some d => simp [h, hp, eq_comm]

lemma parse_money_error_iff (value column : String) (e : ReportError) :
    parse_money_or_zero value column = .error e ↔
      normalize_number value ≠ "" ∧
        parseDecimal (normalize_number value) = none ∧
        e = .number (rustTrim value) column := by
  unfold parse_money_or_zero
  by_cases h : normalize_number value = ""
  · simp [h]
  · cases hp : parseDecimal (normalize_number value) with
    | none => simp [h, hp, eq_comm]
    | some d => simp [h, hp]

/-- C4: `parse_money_or_zero` returns exact zero whenever the input
normalizes to the empty string, and it errs exactly when the normalized
input is non-empty and is not a decimal literal, the error being a
`Number` error carrying the trimmed original text and the column name
(and no other error shape ever escapes). -/
theorem c4_money_zero_on_blank_else_number_error (value column : String) :
    (normalize_number value = "" → parse_money_or_zero value column = .ok 0) ∧
    (parse_money_or_zero value column =
        .error (.number (rustTrim value) column) ↔
      normalize_number value ≠ "" ∧
        parseDecimal (normalize_number value) = none) ∧
    (∀ e, parse_money_or_zero value column = .error e →
      e = .number (rustTrim value) column) := by
  refine ⟨fun h => ?_, ?_, fun e h => ?_⟩
  · exact (parse_money_ok_iff value column 0).mpr (Or.inl ⟨h, rfl⟩)
  · rw [parse_money_error_iff]
    simp
  · exact ((parse_money_error_iff value column e).mp h).2.2

/-- Witness for the money-parsing claim at a blank-like input. -/
theorem c4_money_witness :
    normalize_number " + " = "" ∧ parse_money_or_zero " + " "Сумма" = .ok 0 :=
  ⟨by decide, (c4_money_zero_on_blank_else_number_error " + " "Сумма").1 (by decide)⟩

/-- C8 counterexample: the code removes a plus sign anywhere in the text,
not only a leading one, so the string `1+2` normalizes to `12` and parses
as twelve, while the normalization described by the claim leaves `1+2`
unchanged, which is not a decimal literal. -/
theorem c8_plus_anywhere_counterexample :
    normalize_number "1+2" = "12" ∧ specNormalizeNumber "1+2" = "1+2" ∧
    parseDecimal "1+2" = none ∧
    parse_money_or_zero "1+2" "Сумма ДС" = .ok 12 := by
  have hparts : parseDecimalParts "1+2" = none := by decide
  have hparts12 : parseDecimalParts (normalize_number "1+2") = some (12, 0) := by
    decide
  refine ⟨by decide, by decide, ?_, ?_⟩
  · simp [parseDecimal, hparts]
  · have hnv : normalize_number "1+2" ≠ "" := by decide
    refine (parse_money_ok_iff _ _ _).mpr (Or.inr ⟨hnv, ?_⟩)
    simp [parseDecimal, hparts12]

/-- C8 amended: number normalization removes plain spaces, no-break
spaces, narrow no-break spaces and every plus sign wherever it occurs
(then trims remaining whitespace from both ends), and parsing a money
string succeeds with the same value, or likewise fails, as parsing its
normalization. -/
theorem c8_normalization_amended (s column : String) :
    (∀ c ∈ (normalize_number s).data, isRemovedChar c = false) ∧
    (∀ v : Money, parse_money_or_zero s column = .ok v ↔
        parse_money_or_zero (normalize_number s) column = .ok v) ∧
    ((∃ e, parse_money_or_zero s column = .error e) ↔
      (∃ e, parse_money_or_zero (normalize_number s) column = .error e)) := by
  refine ⟨fun c hc => ?_, fun v => ?_, ?_, ?_⟩
  · rw [normalize_number_data] at hc
    simpa using (List.mem_filter.mp (mem_rustTrimChars hc)).2
  · rw [parse_money_ok_iff, parse_money_ok_iff, normalize_number_idem]
  · rintro ⟨e, he⟩
    rw [parse_money_error_iff] at he
    exact ⟨.number (rustTrim (normalize_number s)) column,
      (parse_money_error_iff _ _ _).mpr
        ⟨by rw [normalize_number_idem]; exact he.1,
         by rw [normalize_number_idem]; exact he.2.1, rfl⟩⟩
  · rintro ⟨e, he⟩
    rw [parse_money_error_iff, normalize_number_idem] at he
    exact ⟨.number (rustTrim s) column,
      (parse_money_error_iff _ _ _).mpr ⟨he.1, he.2.1, rfl⟩⟩

/-- Witness for the amended normalization claim. -/
theorem c8_normalization_witness :
    ('1' ∈ (normalize_number "+1 5").data) ∧ isRemovedChar '1' = false :=
  ⟨by decide, (c8_normalization_amended "+1 5" "w").1 '1' (by decide)⟩

/-! ### Date parsing lemmas -/

lemma decDigitChar_spec {n : Nat} (h : n < 10) :
    (decDigitChar n).isDigit = true ∧
    isRustWhitespace (decDigitChar n) = false ∧
    decDigitChar n ≠ '-' ∧ decDigitChar n ≠ '+' ∧
    (decDigitChar n).toNat - 48 = n := by
  interval_cases n <;> exact ⟨by decide, by decide, by decide, by decide, by decide⟩

lemma scanNumber_two {a b : Nat} (ha : a < 10) (hb : b < 10)
    (rest : List Char) :
    scanNumber (decDigitChar a :: decDigitChar b :: rest) 2 =
      some (10 * a + b, rest) := by
  obtain ⟨da, -, -, -, va⟩ := decDigitChar_spec ha
  obtain ⟨db, -, -, -, vb⟩ := decDigitChar_spec hb
  simp [scanNumber, scanDigits, da, db, va, vb]

lemma scanNumber_four {a b c d : Nat} (ha : a < 10) (hb : b < 10)
    (hc : c < 10) (hd : d < 10) (rest : List Char) :
    scanNumber (decDigitChar a :: decDigitChar b :: decDigitChar c ::
        decDigitChar d :: rest) 4 =
      some (10 * (10 * (10 * a + b) + c) + d, rest) := by
  obtain ⟨da, -, -, -, va⟩ := decDigitChar_spec ha
  obtain ⟨db, -, -, -, vb⟩ := decDigitChar_spec hb
  obtain ⟨dc, -, -, -, vc⟩ := decDigitChar_spec hc
  obtain ⟨dd, -, -, -, vd⟩ := decDigitChar_spec hd
  simp [scanNumber, scanDigits, da, db, dc, dd, va, vb, vc, vd]

lemma parseDMYChars_strict {d m y : Nat} (hd : d ≤ 99) (hm : m ≤ 99)
    (hy : y ≤ 9999) :
    parseDMYChars (twoDigitChars d ++ '.' :: twoDigitChars m ++ '.' ::
        fourDigitChars y) = some ((y : Int), m, d) := by
  have hd1 : d / 10 < 10 := by omega
  have hd2 : d % 10 < 10 := by omega
  have hm1 : m / 10 < 10 := by omega
  have hm2 : m % 10 < 10 := by omega
  have hy1 : y / 1000 < 10 := by omega
  have hy2 : y / 100 % 10 < 10 := by omega
  have hy3 : y / 10 % 10 < 10 := by omega
  have hy4 : y % 10 < 10 := by omega
  have ed : 10 * (d / 10) + d % 10 = d := by omega
  have em : 10 * (m / 10) + m % 10 = m := by omega
  have ey : 10 * (10 * (10 * (y / 1000) + y / 100 % 10) + y / 10 % 10) +
      y % 10 = y := by omega
  simp only [twoDigitChars, fourDigitChars, parseDMYChars, List.cons_append,
    List.nil_append]
  rw [List.dropWhile_cons_of_neg (by simp [(decDigitChar_spec hd1).2.1])]
  rw [scanNumber_two hd1 hd2, ed]
  simp only [Option.some_bind, expectDot]
  rw [List.dropWhile_cons_of_neg (by simp [(decDigitChar_spec hm1).2.1])]
  rw [scanNumber_two hm1 hm2, em]
  simp only [Option.some_bind, expectDot]
  rw [List.dropWhile_cons_of_neg (by simp [(decDigitChar_spec hy1).2.1])]
  simp only [scanYear, if_neg (decDigitChar_spec hy1).2.2.1,
    if_neg (decDigitChar_spec hy1).2.2.2.1]
  rw [scanNumber_four hy1 hy2 hy3 hy4, ey]
  simp

lemma rustTrimChars_strict {d m y : Nat} (hd : d ≤ 99) :
    rustTrimChars (twoDigitChars d ++ '.' :: twoDigitChars m ++ '.' ::
        fourDigitChars y) =
      twoDigitChars d ++ '.' :: twoDigitChars m ++ '.' :: fourDigitChars y := by
  have hd1 : d / 10 < 10 := by omega
  have hy4 : y % 10 < 10 := by omega
  unfold rustTrimChars
  simp only [twoDigitChars, fourDigitChars, List.cons_append, List.nil_append]
  rw [List.dropWhile_cons_of_neg (by simp [(decDigitChar_spec hd1).2.1])]
  refine List.rdropWhile_eq_self_iff.mpr (fun hl => ?_)
  simp [List.getLast, (decDigitChar_spec hy4).2.1]

lemma rustTrim_strict {d m y : Nat} (hd : d ≤ 99) :
    rustTrim (strictDMYString d m y) = strictDMYString d m y := by
  unfold rustTrim strictDMYString
  congr 1
  exact rustTrimChars_strict hd

/-- C9 counterexample: the chrono parser behind `parse_date` is lenient
about zero padding, so the input `1.1.2024`, which does not have the
two-digit-day/two-digit-month shape, parses successfully instead of
producing a `Date` error. -/
theorem c9_lenient_day_counterexample :
    isStrictDMY "1.1.2024" = false ∧
    parse_date "1.1.2024" = .ok ⟨2024, 1, 1⟩ := ⟨by decide, by decide⟩

/-- C9 amended: every trimmed input in strict `dd.mm.yyyy` shape parses to
the corresponding calendar date exactly when that date is valid (else a
`Date` error carrying the text), and every failure of `parse_date` is a
`Date` error carrying the trimmed original text; however the parser also
accepts some non-strict shapes (see the counterexample). -/
theorem c9_date_amended :
    (∀ d m y : Nat, d ≤ 99 → m ≤ 99 → y ≤ 9999 →
      parse_date (strictDMYString d m y) =
        if chronoValidYmd (y : Int) m d then .ok ⟨(y : Int), m, d⟩
        else .error (.date (strictDMYString d m y))) ∧
    (∀ s e, parse_date s = .error e → e = .date (rustTrim s)) := by
  constructor
  · intro d m y hd hm hy
    have hdata : (strictDMYString d m y).data =
        twoDigitChars d ++ '.' :: twoDigitChars m ++ '.' :: fourDigitChars y :=
      rfl
    simp only [parse_date]
    rw [rustTrim_strict hd, hdata, parseDMYChars_strict hd hm hy]
  · intro s e h
    simp only [parse_date] at h
    rcases hp : parseDMYChars (rustTrim s).data with _ | ⟨y, m, d⟩
    · rw [hp] at h
      exact (Except.error.injEq _ _).mp h.symm
    · rw [hp] at h
      by_cases hv : chronoValidYmd y m d
      · simp [hv] at h
      · simp only [hv, if_neg, Bool.false_eq_true, if_false] at h
        exact (Except.error.injEq _ _).mp h.symm

/-- Witness for the amended date claim at the date 15.03.2023. -/
theorem c9_date_witness :
    parse_date (strictDMYString 15 3 2023) =
      (if chronoValidYmd ((2023 : Nat) : Int) 3 15 then
        Except.ok ⟨((2023 : Nat) : Int), 3, 15⟩
      else Except.error (.date (strictDMYString 15 3 2023))) :=
  c9_date_amended.1 15 3 2023 (by decide) (by decide) (by decide)

/-! ### Table locator lemmas -/

lemma find?_eq_some_split {α : Type} {p : α → Bool} {l : List α} {a : α}
    (h : l.find? p = some a) :
    p a = true ∧ ∃ pre post, l = pre ++ a :: post ∧ ∀ x ∈ pre, p x = false := by
  induction l with
  | nil => simp at h
  | cons b t ih =>
    by_cases hb : p b
    · rw [List.find?_cons_of_pos _ hb] at h
      obtain rfl : b = a := by simpa using h
      exact ⟨hb, [], t, rfl, by simp⟩
    · rw [List.find?_cons_of_neg _ hb] at h
      obtain ⟨hpa, pre, post, rfl, hpre⟩ := ih h
      refine ⟨hpa, b :: pre, post, rfl, ?_⟩
      intro x hx
      rcases List.mem_cons.mp hx with rfl | hx
      · simpa using hb
      · exact hpre x hx

lemma tableHasHeaders_iff (required : List String) (depth : Nat)
    (t : HtmlTable) :
    tableHasHeaders required depth t = true ↔
      TableMatchesSpec required depth t := by
  unfold tableHasHeaders TableMatchesSpec rowHasHeaders
  simp [List.any_eq_true, List.all_eq_true]

/-- C3 counterexample: a table whose two required headers sit in two
different header rows is not found even with depth 2, although every
phrase does occur within the first two rows. -/
theorem c3_split_headers_counterexample :
    (∀ phrase ∈ (["A", "B"] : List String),
      ∃ row ∈ ([["A"], ["B"]] : HtmlTable).take 2,
        ∃ cell ∈ row, strContains cell phrase = true) ∧
    find_table_with_headers [[["A"], ["B"]]] ["A", "B"] (some 2) = none := by
  exact ⟨by decide, by decide⟩

/-- C3 amended: the locator returns the first table in document order
having some single row among its first `depth` rows (default depth 1)
that contains every required phrase by substring match, and returns
not-found exactly when no table has such a row; headers split across two
different header rows are not found at any depth. -/
theorem c3_locator_amended (doc : List HtmlTable) (required : List String)
    (dep : Option Nat) :
    (∀ t, find_table_with_headers doc required dep = some t →
      TableMatchesSpec required (dep.getD 1) t ∧
      ∃ pre post, doc = pre ++ t :: post ∧
        ∀ t' ∈ pre, ¬ TableMatchesSpec required (dep.getD 1) t') ∧
    (find_table_with_headers doc required dep = none ↔
      ∀ t ∈ doc, ¬ TableMatchesSpec required (dep.getD 1) t) := by
  constructor
  · intro t ht
    unfold find_table_with_headers at ht
    obtain ⟨hpa, pre, post, rfl, hpre⟩ := find?_eq_some_split ht
    refine ⟨(tableHasHeaders_iff _ _ _).mp hpa, pre, post, rfl, ?_⟩
    intro t' ht' hspec
    have := (tableHasHeaders_iff required (dep.getD 1) t').mpr hspec
    rw [hpre t' ht'] at this
    exact Bool.false_ne_true this
  · unfold find_table_with_headers
    rw [List.find?_eq_none]
    constructor
    · intro h t ht hspec
      exact h t ht ((tableHasHeaders_iff _ _ _).mpr hspec)
    · intro h t ht hb
      exact h t ht ((tableHasHeaders_iff _ _ _).mp hb)

/-- Witness for the amended locator claim: the second table is found
because its single header row carries the phrase, the first does not. -/
theorem c3_locator_witness :
    TableMatchesSpec ["A"] 1 [["A B"]] ∧
    ∃ pre post, ([[["B"]], [["A B"]]] : List HtmlTable) = pre ++ [["A B"]] :: post ∧
      ∀ t' ∈ pre, ¬ TableMatchesSpec ["A"] 1 t' :=
  (c3_locator_amended [[["B"]], [["A B"]]] ["A"] none).1 [["A B"]] (by decide)

/-! ### Report assembly lemmas -/

lemma except_ok_bind {ε α β : Type} (a : α) (f : α → Except ε β) :
    (Except.ok a : Except ε α).bind f = f a := rfl

lemma except_error_bind {ε α β : Type} (e : ε) (f : α → Except ε β) :
    (Except.error e : Except ε α).bind f = .error e := rfl

lemma except_bind_ok {ε α β : Type} (x : Except ε α) (f : α → Except ε β)
    (b : β) :
    x.bind f = .ok b ↔ ∃ a, x = .ok a ∧ f a = .ok b := by
  cases x <;> simp [Except.bind]

lemma parse_optional_ok_inv {T : Type} {en : Bool}
    {res : Except ReportError T} {o : Option T}
    (h : parse_optional en res = .ok o) :
    (∀ v, o = some v ↔ en = true ∧ res = .ok v) ∧
    (o = none ↔ en = false ∨ ∃ t, res = .error (.tableNotFound t)) ∧
    (en = true → RecoverableResult res) := by
  cases en with
  | false =>
    simp only [parse_optional, Bool.not_false, if_pos] at h
    obtain rfl : (none : Option T) = o := by simpa using h
    simp
  | true =>
    cases res with
    | ok v =>
      obtain rfl : (some v : Option T) = o := by
        simpa [parse_optional] using h
      refine ⟨fun w => ?_, by simp, fun _ => Or.inl ⟨v, rfl⟩⟩
      simp [eq_comm]
    | error err =>
      cases err <;> simp only [parse_optional, Bool.not_true, if_neg,
        Bool.false_eq_true, not_false_eq_true, if_false] at h
      case tableNotFound t =>
        obtain rfl : (none : Option T) = o := by simpa using h
        refine ⟨by simp, ?_, fun _ => Or.inr ⟨t, rfl⟩⟩
        simp
      all_goals simp_all

lemma parse_optional_ok_of {T : Type} {en : Bool}
    {res : Except ReportError T} (h : en = true → RecoverableResult res) :
    ∃ o, parse_optional en res = .ok o := by
  cases en with
  | false => exact ⟨none, rfl⟩
  | true =>
    rcases h rfl with ⟨v, rfl⟩ | ⟨t, rfl⟩
    · exact ⟨some v, rfl⟩
    · exact ⟨none, rfl⟩

lemma parse_optional_error_of {T : Type} {en : Bool}
    {res : Except ReportError T} {e : ReportError} (hen : en = true)
    (hres : res = .error e) (hne : ∀ t, e ≠ .tableNotFound t) :
    parse_optional en res = .error e := by
  subst hen hres
  cases e <;> simp [parse_optional]
  case tableNotFound t => exact absurd rfl (hne t)

/-- C1: with valid metadata, the document parse succeeds exactly when every
enabled section loader succeeds or fails with the dedicated table-not-found
error; on success the report carries that metadata, an enabled section is
present exactly when its loader succeeded and absent exactly when it was
disabled or its table was not found (so the other sections are produced
normally); and a non-recoverable loader error of the first failing enabled
section aborts the whole parse, returning that very error — hence no
partially-populated report is ever produced. -/
theorem c1_section_error_policy (dom : DomOutcome) (options : ParseOptions)
    (m : ReportMetadata) (hmeta : dom.metaResult = .ok m) :
    ((∃ r, Report.parse_with_options dom options = .ok r) ↔
      ((options.load_asset_valuation = true →
          RecoverableResult dom.assetValuationResult) ∧
       (options.load_cash_flow = true →
          RecoverableResult dom.cashFlowResult) ∧
       (options.load_portfolio = true →
          RecoverableResult dom.portfolioResult) ∧
       (options.load_iis_contributions = true →
          RecoverableResult dom.iisContributionsResult))) ∧
    (∀ r, Report.parse_with_options dom options = .ok r →
      r.meta = m ∧
      (∀ v, r.asset_valuation = some v ↔
        options.load_asset_valuation = true ∧
          dom.assetValuationResult = .ok v) ∧
      (r.asset_valuation = none ↔ options.load_asset_valuation = false ∨
        ∃ t, dom.assetValuationResult = .error (.tableNotFound t)) ∧
      (∀ v, r.cash_flow_summary = some v ↔
        options.load_cash_flow = true ∧ dom.cashFlowResult = .ok v) ∧
      (r.cash_flow_summary = none ↔ options.load_cash_flow = false ∨
        ∃ t, dom.cashFlowResult = .error (.tableNotFound t)) ∧
      (∀ v, r.portfolio = some v ↔
        options.load_portfolio = true ∧ dom.portfolioResult = .ok v) ∧
      (r.portfolio = none ↔ options.load_portfolio = false ∨
        ∃ t, dom.portfolioResult = .error (.tableNotFound t)) ∧
      (∀ v, r.iis_contributions = some v ↔
        options.load_iis_contributions = true ∧
          dom.iisContributionsResult = .ok v) ∧
      (r.iis_contributions = none ↔
        options.load_iis_contributions = false ∨
        ∃ t, dom.iisContributionsResult = .error (.tableNotFound t))) ∧
    (∀ e, (∀ t, e ≠ .tableNotFound t) →
      ((options.load_asset_valuation = true ∧
          dom.assetValuationResult = .error e →
        Report.parse_with_options dom options = .error e) ∧
       ((options.load_asset_valuation = true →
           RecoverableResult dom.assetValuationResult) →
         options.load_cash_flow = true → dom.cashFlowResult = .error e →
        Report.parse_with_options dom options = .error e) ∧
       ((options.load_asset_valuation = true →
           RecoverableResult dom.assetValuationResult) →
         (options.load_cash_flow = true →
           RecoverableResult dom.cashFlowResult) →
         options.load_portfolio = true → dom.portfolioResult = .error e →
        Report.parse_with_options dom options = .error e) ∧
       ((options.load_asset_valuation = true →
           RecoverableResult dom.assetValuationResult) →
         (options.load_cash_flow = true →
           RecoverableResult dom.cashFlowResult) →
         (options.load_portfolio = true →
           RecoverableResult dom.portfolioResult) →
         options.load_iis_contributions = true →
         dom.iisContributionsResult = .error e →
        Report.parse_with_options dom options = .error e))) := by
  have hm' : Report.parse_with_options dom options =
      (parse_optional options.load_asset_valuation
          dom.assetValuationResult).bind fun asset_valuation =>
        (parse_optional options.load_cash_flow dom.cashFlowResult).bind
          fun cash_flow_summary =>
          (parse_optional options.load_portfolio dom.portfolioResult).bind
            fun portfolio =>
            (parse_optional options.load_iis_contributions
                dom.iisContributionsResult).bind fun iis_contributions =>
              .ok ⟨m, asset_valuation, cash_flow_summary, portfolio,
                   iis_contributions⟩ := by
    unfold Report.parse_with_options
    rw [hmeta, except_ok_bind]
  refine ⟨?_, ?_, ?_⟩
  · constructor
    · rintro ⟨r, hr⟩
      rw [hm', except_bind_ok] at hr
      obtain ⟨av, hav, hr⟩ := hr
      rw [except_bind_ok] at hr
      obtain ⟨cf, hcf, hr⟩ := hr
      rw [except_bind_ok] at hr
      obtain ⟨pf, hpf, hr⟩ := hr
      rw [except_bind_ok] at hr
      obtain ⟨iis, hiis, -⟩ := hr
      exact ⟨(parse_optional_ok_inv hav).2.2, (parse_optional_ok_inv hcf).2.2,
        (parse_optional_ok_inv hpf).2.2, (parse_optional_ok_inv hiis).2.2⟩
    · rintro ⟨h1, h2, h3, h4⟩
      obtain ⟨o1, ho1⟩ := parse_optional_ok_of h1
      obtain ⟨o2, ho2⟩ := parse_optional_ok_of h2
      obtain ⟨o3, ho3⟩ := parse_optional_ok_of h3
      obtain ⟨o4, ho4⟩ := parse_optional_ok_of h4
      exact ⟨⟨m, o1, o2, o3, o4⟩, by
        rw [hm', ho1, except_ok_bind, ho2, except_ok_bind, ho3,
          except_ok_bind, ho4, except_ok_bind]⟩
  · intro r hr
    rw [hm', except_bind_ok] at hr
    obtain ⟨av, hav, hr⟩ := hr
    rw [except_bind_ok] at hr
    obtain ⟨cf, hcf, hr⟩ := hr
    rw [except_bind_ok] at hr
    obtain ⟨pf, hpf, hr⟩ := hr
    rw [except_bind_ok] at hr
    obtain ⟨iis, hiis, hr⟩ := hr
    obtain rfl : (⟨m, av, cf, pf, iis⟩ : Report) = r := by
      simpa using hr
    exact ⟨rfl, (parse_optional_ok_inv hav).1, (parse_optional_ok_inv hav).2.1,
      (parse_optional_ok_inv hcf).1, (parse_optional_ok_inv hcf).2.1,
      (parse_optional_ok_inv hpf).1, (parse_optional_ok_inv hpf).2.1,
      (parse_optional_ok_inv hiis).1, (parse_optional_ok_inv hiis).2.1⟩
  · intro e hne
    refine ⟨?_, ?_, ?_, ?_⟩
    · rintro ⟨hen, herr⟩
      rw [hm', parse_optional_error_of hen herr hne, except_error_bind]
    · intro hrec1 hen herr
      obtain ⟨o1, ho1⟩ := parse_optional_ok_of hrec1
      rw [hm', ho1, except_ok_bind, parse_optional_error_of hen herr hne,
        except_error_bind]
    · intro hrec1 hrec2 hen herr
      obtain ⟨o1, ho1⟩ := parse_optional_ok_of hrec1
      obtain ⟨o2, ho2⟩ := parse_optional_ok_of hrec2
      rw [hm', ho1, except_ok_bind, ho2, except_ok_bind,
        parse_optional_error_of hen herr hne, except_error_bind]
    · intro hrec1 hrec2 hrec3 hen herr
      obtain ⟨o1, ho1⟩ := parse_optional_ok_of hrec1
      obtain ⟨o2, ho2⟩ := parse_optional_ok_of hrec2
      obtain ⟨o3, ho3⟩ := parse_optional_ok_of hrec3
      rw [hm', ho1, except_ok_bind, ho2, except_ok_bind, ho3, except_ok_bind,
        parse_optional_error_of hen herr hne, except_error_bind]

/-- Witness for the error-policy claim: a document whose portfolio table is
missing still parses to a full report. -/
theorem c1_section_witness :
    sampleDom.metaResult = .ok sampleMeta ∧
    ∃ r, Report.parse_with_options sampleDom ParseOptions.everything =
      .ok r :=
  ⟨rfl, (c1_section_error_policy sampleDom ParseOptions.everything sampleMeta
      rfl).1.mpr
    ⟨fun _ => Or.inl ⟨⟨[], 0⟩, rfl⟩, fun _ => Or.inl ⟨⟨[]⟩, rfl⟩,
     fun _ => Or.inr ⟨"Portfolio", rfl⟩, fun _ => Or.inl ⟨⟨[]⟩, rfl⟩⟩⟩

/-! ### Asset valuation lemmas -/

lemma foldl_add_eq_sum (l : List ℚ) (a : ℚ) :
    l.foldl (· + ·) a = a + l.sum := by
  induction l generalizing a with
  | nil => simp
  | cons x t ih => rw [List.foldl_cons, ih, List.sum_cons]; ring

lemma avLoop_ge_three (l : List TableRow) :
    ∀ idx acc total seen, 3 ≤ idx →
      avLoop idx acc total seen l = avBody acc total seen l := by
  induction l with
  | nil => intro idx acc total seen h; rfl
  | cons cells rest ih =>
    intro idx acc total seen h
    simp only [avLoop, avBody]
    rw [if_neg (by omega)]
    by_cases hemp : cells.isEmpty = true
    · rw [if_pos hemp, if_pos hemp]
      exact ih (idx + 1) acc total seen (by omega)
    · rw [if_neg hemp, if_neg hemp]
      by_cases hsum : isSummaryRow cells = true
      · rw [if_pos hsum, if_pos hsum]
        cases hres : parse_money_or_zero (cells.getLastD "") "Итого" with
        | error e => rw [except_error_bind, except_error_bind]
        | ok v =>
          rw [except_ok_bind, except_ok_bind]
          exact ih (idx + 1) acc v true (by omega)
      · rw [if_neg hsum, if_neg hsum]
        by_cases hlen : cells.length < 10
        · rw [if_pos hlen, if_pos hlen]
          exact ih (idx + 1) acc total seen (by omega)
        · rw [if_neg hlen, if_neg hlen]
          cases hrow : parseValuationRow cells with
          | error e => rw [except_error_bind, except_error_bind]
          | ok row =>
            rw [except_ok_bind, except_ok_bind]
            exact ih (idx + 1) (acc ++ [row]) total seen (by omega)

lemma avLoop_zero (trs : List TableRow) (acc : List AssetValuationRow)
    (total : Money) (seen : Bool) :
    avLoop 0 acc total seen trs = avBody acc total seen (trs.drop 3) := by
  match trs with
  | [] => rfl
  | [a] => simp [avLoop, avBody]
  | [a, b] => simp [avLoop, avBody]
  | a :: b :: c :: rest =>
    have hstep : avLoop 0 acc total seen (a :: b :: c :: rest) =
        avLoop 3 acc total seen rest := by
      simp [avLoop]
    rw [hstep, avLoop_ge_three rest 3 acc total seen (by omega)]
    rfl

lemma avBody_spec (l : List TableRow) :
    ∀ acc total seen rows total' seen',
      avBody acc total seen l = .ok (rows, total', seen') →
      (∃ newRows, parseRowsSpec (l.filter avIsDataRow) = .ok newRows ∧
        rows = acc ++ newRows) ∧
      (seen' = (seen || !(l.filter isSummaryRow).isEmpty)) ∧
      (∀ s, (l.filter isSummaryRow).getLast? = some s →
        parse_money_or_zero (s.getLastD "") "Итого" = .ok total') ∧
      ((l.filter isSummaryRow) = [] → total' = total) := by
  induction l with
  | nil =>
    intro acc total seen rows total' seen' h
    obtain ⟨h1, h2, h3⟩ : rows = acc ∧ total' = total ∧ seen' = seen := by
      have := h
      simp only [avBody] at this
      exact ⟨by simp_all, by simp_all, by simp_all⟩
    subst h1; subst h2; subst h3
    exact ⟨⟨[], rfl, by simp⟩, by simp, by simp, fun _ => rfl⟩
  | cons cells rest ih =>
    intro acc total seen rows total' seen' h
    simp only [avBody] at h
    by_cases hemp : cells.isEmpty = true
    · rw [if_pos hemp] at h
      obtain rfl : cells = [] := by
        cases cells with
        | nil => rfl
        | cons a b => simp at hemp
      have hIH := ih acc total seen rows total' seen' h
      simpa [List.filter_cons, avIsDataRow, isSummaryRow] using hIH
    · rw [if_neg hemp] at h
      by_cases hsum : isSummaryRow cells = true
      · rw [if_pos hsum] at h
        rw [except_bind_ok] at h
        obtain ⟨v, hv, hrest⟩ := h
        obtain ⟨hdata, hseen, hlast, hnos⟩ :=
          ih acc v true rows total' seen' hrest
        have hnotdata : avIsDataRow cells = false := by
          simp [avIsDataRow, hsum]
        refine ⟨?_, ?_, ?_, ?_⟩
        · rwa [List.filter_cons_of_neg (by simp [hnotdata])]
        · rw [List.filter_cons_of_pos (by simp [hsum]), hseen]
          simp
        · intro s hs
          rw [List.filter_cons_of_pos (by simp [hsum])] at hs
          cases hfl : rest.filter isSummaryRow with
          | nil =>
            rw [hfl] at hs
            obtain rfl : cells = s := by simpa using hs
            have : total' = v := hnos hfl
            rw [this]
            exact hv
          | cons x xs =>
            rw [hfl, List.getLast?_cons_cons] at hs
            rw [hfl] at hlast
            exact hlast s hs
        · intro hcon
          rw [List.filter_cons_of_pos (by simp [hsum])] at hcon
          simp at hcon
      · rw [if_neg hsum] at h
        have hsum' : isSummaryRow cells = false := by
          simpa using hsum
        by_cases hlen : cells.length < 10
        · rw [if_pos hlen] at h
          have hnotdata : avIsDataRow cells = false := by
            simp [avIsDataRow]
            omega
          have hIH := ih acc total seen rows total' seen' h
          rw [List.filter_cons_of_neg (by simp [hnotdata]),
            List.filter_cons_of_neg (by simp [hsum'])]
          exact hIH
        · rw [if_neg hlen] at h
          rw [except_bind_ok] at h
          obtain ⟨row, hrow, hrest⟩ := h
          obtain ⟨⟨newRows, hN, hrows⟩, hseen, hlast, hnos⟩ :=
            ih (acc ++ [row]) total seen rows total' seen' hrest
          have hisdata : avIsDataRow cells = true := by
            simp [avIsDataRow, hsum']
            constructor
            · intro hcon; subst hcon; simp at hemp
            · omega
          refine ⟨?_, ?_, ?_, ?_⟩
          · refine ⟨row :: newRows, ?_, ?_⟩
            · rw [List.filter_cons_of_pos (by simp [hisdata])]
              simp only [parseRowsSpec]
              rw [hrow, except_ok_bind, hN, except_ok_bind]
            · rw [hrows, List.append_assoc]
              rfl
          · rwa [List.filter_cons_of_neg (by simp [hsum'])]
          · intro s hs
            rw [List.filter_cons_of_neg (by simp [hsum'])] at hs
            exact hlast s hs
          · intro hcon
            rw [List.filter_cons_of_neg (by simp [hsum'])] at hcon
            exact hnos hcon

/-- C2: whenever the asset valuation extractor succeeds, the total delta is
read from the last cell of the last summary row (first cell containing
`итого`, case-insensitively) when one exists, and is the exact sum of the
data-row deltas otherwise; the data rows are exactly the decodings of the
post-header rows that are nonempty, are not summary rows and carry at
least ten cells — shorter rows produce no data row. -/
theorem c2_valuation_total (trs : List TableRow) (av : AssetValuation)
    (h : parse_asset_valuation trs = .ok av) :
    (∀ s, ((trs.drop 3).filter isSummaryRow).getLast? = some s →
      parse_money_or_zero (s.getLastD "") "Итого" = .ok av.total_delta) ∧
    (((trs.drop 3).filter isSummaryRow) = [] →
      av.total_delta = (av.rows.map (·.delta_total)).sum) ∧
    parseRowsSpec ((trs.drop 3).filter avIsDataRow) = .ok av.rows := by
  unfold parse_asset_valuation at h
  rw [avLoop_zero, except_bind_ok] at h
  obtain ⟨⟨rows, total, seen⟩, hbody, hok⟩ := h
  have hav : av = ⟨rows, if seen then total
      else (rows.map (·.delta_total)).foldl (· + ·) 0⟩ := by
    simpa using hok.symm
  obtain ⟨⟨newRows, hN, hrows⟩, hseen, hlast, hnos⟩ :=
    avBody_spec (trs.drop 3) [] 0 false rows total seen hbody
  obtain rfl : rows = newRows := by simpa using hrows
  subst hav
  refine ⟨?_, ?_, ?_⟩
  · intro s hs
    have hne : (trs.drop 3).filter isSummaryRow ≠ [] := by
      intro hcon
      rw [hcon] at hs
      simp at hs
    have hseen' : seen = true := by
      rw [hseen]
      simpa using hne
    rw [hseen']
    simpa using hlast s hs
  · intro hemp
    have hseen' : seen = false := by rw [hseen, hemp]; rfl
    rw [hseen']
    simp [foldl_add_eq_sum]
  · simpa using hN

/-- Witness for the valuation claim on a small table with a summary row. -/
theorem c2_valuation_witness :
    parse_asset_valuation sampleValuationTable = .ok sampleValuation ∧
    parse_money_or_zero ((["итого", ""] : TableRow).getLastD "") "Итого" =
      .ok sampleValuation.total_delta :=
  ⟨by decide,
    (c2_valuation_total sampleValuationTable sampleValuation (by decide)).1
      ["итого", ""] (by decide)⟩

/-! ### IIS contributions lemmas -/

lemma iisLoop_ge_three (l : List TableRow) :
    ∀ idx curYear curLimit acc, 3 ≤ idx →
      iisLoop idx curYear curLimit acc l = iisBody curYear curLimit acc l := by
  induction l with
  | nil => intro idx curYear curLimit acc h; rfl
  | cons cells rest ih =>
    intro idx curYear curLimit acc h
    simp only [iisLoop, iisBody]
    rw [if_neg (by omega)]
    by_cases h6 : cells.length < 6
    · rw [if_pos h6, if_pos h6]
      exact ih (idx + 1) curYear curLimit acc (by omega)
    · rw [if_neg h6, if_neg h6]
      by_cases hbl : cells.all (· = "") = true
      · rw [if_pos hbl, if_pos hbl]
        exact ih (idx + 1) curYear curLimit acc (by omega)
      · rw [if_neg hbl, if_neg hbl]
        cases hy : iisYearStep (cells.getD 0 "") curYear with
        | error e => rw [except_error_bind, except_error_bind]
        | ok curYear' =>
          rw [except_ok_bind, except_ok_bind]
          cases hl : iisLimitStep (cells.getD 1 "") curLimit with
          | error e => rw [except_error_bind, except_error_bind]
          | ok curLimit' =>
            rw [except_ok_bind, except_ok_bind]
            by_cases hd : cells.getD 2 "" = ""
            · rw [if_pos hd, if_pos hd]
              exact ih (idx + 1) curYear' curLimit' acc (by omega)
            · rw [if_neg hd, if_neg hd]
              cases curYear' with
              | none => rfl
              | some year =>
                rw [show optionOkOr (some year)
                    (ReportError.missingField "Год") = .ok year from rfl,
                  except_ok_bind, except_ok_bind]
                cases hdate : parse_date (cells.getD 2 "") with
                | error e => rw [except_error_bind, except_error_bind]
                | ok date =>
                  rw [except_ok_bind, except_ok_bind]
                  cases ham : parse_money_or_zero (cells.getD 3 "") "Сумма ИИС" with
                  | error e => rw [except_error_bind, except_error_bind]
                  | ok amount =>
                    rw [except_ok_bind, except_ok_bind]
                    cases hrem : iisRemainingStep (cells.getD 5 "") with
                    | error e => rw [except_error_bind, except_error_bind]
                    | ok remaining =>
                      rw [except_ok_bind, except_ok_bind]
                      exact ih (idx + 1) (some year) curLimit' _ (by omega)

lemma iisLoop_zero (trs : List TableRow) (acc : List IisContribution) :
    iisLoop 0 none none acc trs = iisBody none none acc (trs.drop 3) := by
  match trs with
  | [] => rfl
  | [a] => simp [iisLoop, iisBody]
  | [a, b] => simp [iisLoop, iisBody]
  | a :: b :: c :: rest =>
    have hstep : iisLoop 0 none none acc (a :: b :: c :: rest) =
        iisLoop 3 none none acc rest := by
      simp [iisLoop]
    rw [hstep, iisLoop_ge_three rest 3 none none acc (by omega)]
    rfl

lemma lastNonEmptyCell_append (i : Nat) (pre : List TableRow)
    (cells : TableRow) :
    lastNonEmptyCell i (pre ++ [cells]) =
      if cells.getD i "" = "" then lastNonEmptyCell i pre
      else some (cells.getD i "") := by
  unfold lastNonEmptyCell
  rw [List.map_append, List.filter_append]
  by_cases h : cells.getD i "" = ""
  · rw [if_pos h]
    have h' : ((([cells] : List TableRow).map (fun r => r.getD i "")).filter
        (· ≠ "")) = [] := by
      simp only [List.map_cons, List.map_nil, List.filter, h]
      rfl
    rw [h']
    simp
  · rw [if_neg h]
    have h' : ((([cells] : List TableRow).map (fun r => r.getD i "")).filter
        (· ≠ "")) = [cells.getD i ""] := by
      simp only [List.map_cons, List.map_nil, List.filter]
      rw [show decide (List.getD cells i "" ≠ "") = true by simpa using h]
    rw [h', List.getLast?_concat]

lemma YearInv_step {pre : List TableRow} {cells : TableRow}
    {cur cur' : Option Int} (hinv : YearInv pre cur)
    (h : iisYearStep (cells.getD 0 "") cur = .ok cur') :
    YearInv (pre ++ [cells]) cur' := by
  unfold iisYearStep at h
  by_cases hc : cells.getD 0 "" = ""
  · rw [if_pos hc] at h
    obtain rfl : cur = cur' := by simpa using h
    constructor
    · intro hn
      rw [lastNonEmptyCell_append, if_pos hc] at hn
      exact hinv.1 hn
    · intro ys hys
      rw [lastNonEmptyCell_append, if_pos hc] at hys
      exact hinv.2 ys hys
  · rw [if_neg hc] at h
    cases hp : parseI32 (rustTrim (cells.getD 0 "")) with
    | none => rw [hp] at h; simp at h
    | some y =>
      rw [hp] at h
      obtain rfl : (some y : Option Int) = cur' := by simpa using h
      constructor
      · intro hn
        rw [lastNonEmptyCell_append, if_neg hc] at hn
        simp at hn
      · intro ys hys
        rw [lastNonEmptyCell_append, if_neg hc] at hys
        obtain rfl : cells.getD 0 "" = ys := by simpa using hys
        exact ⟨y, hp, rfl⟩

lemma LimitInv_step {pre : List TableRow} {cells : TableRow}
    {cur cur' : Option Money} (hinv : LimitInv pre cur)
    (h : iisLimitStep (cells.getD 1 "") cur = .ok cur') :
    LimitInv (pre ++ [cells]) cur' := by
  unfold iisLimitStep at h
  by_cases hc : cells.getD 1 "" = ""
  · rw [if_pos hc] at h
    obtain rfl : cur = cur' := by simpa using h
    constructor
    · intro hn
      rw [lastNonEmptyCell_append, if_pos hc] at hn
      exact hinv.1 hn
    · intro ls hls
      rw [lastNonEmptyCell_append, if_pos hc] at hls
      exact hinv.2 ls hls
  · rw [if_neg hc] at h
    by_cases hs : strContains (rustLower (cells.getD 1 "")) "ограничений нет" = true
    · rw [if_pos hs] at h
      obtain rfl : (some 0 : Option Money) = cur' := by simpa using h
      constructor
      · intro hn
        rw [lastNonEmptyCell_append, if_neg hc] at hn
        simp at hn
      · intro ls hls
        rw [lastNonEmptyCell_append, if_neg hc] at hls
        obtain rfl : cells.getD 1 "" = ls := by simpa using hls
        exact ⟨0, rfl, Or.inl ⟨hs, rfl⟩⟩
    · rw [if_neg hs] at h
      cases hp : parse_money_or_zero (cells.getD 1 "") "Лимит ИИС" with
      | error e => rw [hp] at h; simp [Except.map] at h
      | ok v =>
        rw [hp] at h
        obtain rfl : (some v : Option Money) = cur' := by
          simpa [Except.map] using h
        constructor
        · intro hn
          rw [lastNonEmptyCell_append, if_neg hc] at hn
          simp at hn
        · intro ls hls
          rw [lastNonEmptyCell_append, if_neg hc] at hls
          obtain rfl : cells.getD 1 "" = ls := by simpa using hls
          exact ⟨v, rfl, Or.inr ⟨by simpa using hs, hp⟩⟩

lemma iisBody_spec (l : List TableRow) :
    ∀ pre curYear curLimit acc out,
      YearInv pre curYear → LimitInv pre curLimit →
      iisBody curYear curLimit acc l = .ok out →
      ∃ newRows, out = acc ++ newRows ∧
        List.Forall₂ (fun rp o => RowSpec rp.1 rp.2 o)
          ((withPrefixAux pre (l.filter iisKeptRow)).filter
            (fun rp => rp.1.getD 2 "" ≠ "")) newRows := by
  induction l with
  | nil =>
    intro pre curYear curLimit acc out _ _ h
    obtain rfl : acc = out := by simpa [iisBody] using h
    exact ⟨[], by simp, by simp [withPrefixAux]⟩
  | cons cells rest ih =>
    intro pre curYear curLimit acc out hY hL h
    simp only [iisBody] at h
    by_cases h6 : cells.length < 6
    · rw [if_pos h6] at h
      have hkept : iisKeptRow cells = false := by
        simp [iisKeptRow]
        omega
      rw [List.filter_cons_of_neg (by simp [hkept])]
      exact ih pre curYear curLimit acc out hY hL h
    · rw [if_neg h6] at h
      by_cases hbl : cells.all (· = "") = true
      · rw [if_pos hbl] at h
        have hkept : iisKeptRow cells = false := by
          simp [iisKeptRow, hbl]
        rw [List.filter_cons_of_neg (by simp [hkept])]
        exact ih pre curYear curLimit acc out hY hL h
      · rw [if_neg hbl] at h
        have hkept : iisKeptRow cells = true := by
          simp [iisKeptRow, hbl]
          omega
        rw [List.filter_cons_of_pos (by simp [hkept])]
        rw [except_bind_ok] at h
        obtain ⟨curYear', hy, h⟩ := h
        rw [except_bind_ok] at h
        obtain ⟨curLimit', hl, h⟩ := h
        have hY' := YearInv_step hY hy
        have hL' := LimitInv_step hL hl
        by_cases hd : cells.getD 2 "" = ""
        · rw [if_pos hd] at h
          simp only [withPrefixAux]
          rw [List.filter_cons_of_neg (by simp only [hd]; simp)]
          exact ih (pre ++ [cells]) curYear' curLimit' acc out hY' hL' h
        · rw [if_neg hd] at h
          cases hcy : curYear' with
          | none =>
            rw [hcy] at h
            simp [optionOkOr, except_error_bind] at h
          | some year =>
            rw [hcy] at h hY'
            rw [show optionOkOr (some year)
                (ReportError.missingField "Год") = .ok year from rfl,
              except_ok_bind] at h
            rw [except_bind_ok] at h
            obtain ⟨date, hdate, h⟩ := h
            rw [except_bind_ok] at h
            obtain ⟨amount, ham, h⟩ := h
            rw [except_bind_ok] at h
            obtain ⟨rem, hrem, h⟩ := h
            obtain ⟨newRows, hout, hfa⟩ :=
              ih (pre ++ [cells]) (some year) curLimit' _ out hY' hL' h
            refine ⟨IisContribution.mk year (curLimit'.getD 0) date amount
                (cells.getD 4 "") rem :: newRows, ?_, ?_⟩
            · rw [hout, List.append_assoc]
              rfl
            · simp only [withPrefixAux]
              rw [List.filter_cons_of_pos (by simpa using hd)]
              refine List.Forall₂.cons ⟨?_, ?_, hdate, ham, rfl, hrem⟩ hfa
              · rcases hln : lastNonEmptyCell 0 (pre ++ [cells]) with _ | ys
                · exact absurd (hY'.1 hln) (by simp)
                · obtain ⟨y, hpy, hyy⟩ := hY'.2 ys hln
                  obtain rfl : year = y := by simpa using hyy
                  exact ⟨ys, rfl, hpy⟩
              · rcases hln : lastNonEmptyCell 1 (pre ++ [cells]) with _ | ls
                · have hcl : curLimit' = none := hL'.1 hln
                  refine Or.inr ⟨rfl, ?_⟩
                  simp [hcl]
                · obtain ⟨v, hv, hcases⟩ := hL'.2 ls hln
                  refine Or.inl ⟨ls, rfl, ?_⟩
                  rcases hcases with ⟨hs, rfl⟩ | ⟨hs, hok⟩
                  · exact Or.inl ⟨hs, by simp [hv]⟩
                  · refine Or.inr ⟨hs, ?_⟩
                    show parse_money_or_zero ls "Лимит ИИС" =
                      .ok (curLimit'.getD 0)
                    rw [hv]
                    simpa using hok

/-- C5: whenever the contributions extractor succeeds, the emitted rows
correspond one-to-one, in order, to exactly the processed rows (at least
six cells, not all blank, after the three header rows) whose
operation-date cell is non-blank, and each emitted row takes its year from
the most recent non-blank year cell, its limit from the most recent
non-blank limit cell (with the sentinel `ограничений нет` read as exact
zero, in the limit and in the remaining-limit cell alike) and its other
fields from its own cells. -/
theorem c5_contributions_sticky (trs : List TableRow)
    (t : IisContributionsTable)
    (h : parse_iis_contributions trs = .ok t) :
    List.Forall₂ (fun rp out => RowSpec rp.1 rp.2 out)
      ((withPrefixRows ((trs.drop 3).filter iisKeptRow)).filter
        (fun rp => rp.1.getD 2 "" ≠ "")) t.rows := by
  unfold parse_iis_contributions at h
  rw [iisLoop_zero, except_bind_ok] at h
  obtain ⟨rows, hbody, hok⟩ := h
  obtain rfl : t = ⟨rows⟩ := by simpa using hok.symm
  obtain ⟨newRows, hout, hfa⟩ := iisBody_spec (trs.drop 3) [] none none [] rows
    ⟨fun _ => rfl, fun ys hys => by simp [lastNonEmptyCell] at hys⟩
    ⟨fun _ => rfl, fun ls hls => by simp [lastNonEmptyCell] at hls⟩ hbody
  obtain rfl : rows = newRows := by simpa using hout
  exact hfa

/-- Witness for the sticky-state claim on the two-row fixture. -/
theorem c5_contributions_witness :
    parse_iis_contributions sampleContribTable = .ok sampleContribs ∧
    List.Forall₂ (fun rp out => RowSpec rp.1 rp.2 out)
      ((withPrefixRows ((sampleContribTable.drop 3).filter iisKeptRow)).filter
        (fun rp => rp.1.getD 2 "" ≠ "")) sampleContribs.rows :=
  ⟨by decide,
   c5_contributions_sticky sampleContribTable sampleContribs (by decide)⟩

/-! ### Missing-year versus defaulted-limit lemmas -/

lemma all_blank_getD {cells : TableRow}
    (h : cells.all (· = "") = true) (i : Nat) : cells.getD i "" = "" := by
  rcases Nat.lt_or_ge i cells.length with hlt | hge
  · have hmem := List.getElem_mem hlt
    have := List.all_eq_true.mp h _ hmem
    rw [List.getD_eq_getElem cells "" hlt]
    simpa using this
  · exact List.getD_eq_default cells "" hge

lemma iisYearStep_blank (cur : Option Int) : iisYearStep "" cur = .ok cur :=
  rfl

lemma iisLimitStep_blank (cur : Option Money) :
    iisLimitStep "" cur = .ok cur := rfl

lemma iisYearStep_parse {c0 : String} {y : Int} (cur : Option Int)
    (hne : c0 ≠ "") (hp : parseI32 (rustTrim c0) = some y) :
    iisYearStep c0 cur = .ok (some y) := by
  unfold iisYearStep
  rw [if_neg hne, hp]

lemma iisBody_no_year_mid (p : TableRow) (rest : List TableRow)
    (hp6 : 6 ≤ p.length) (hp0 : p.getD 0 "" = "") (hp1 : p.getD 1 "" = "")
    (hp2 : p.getD 2 "" ≠ "") :
    ∀ (mid : List TableRow) (acc : List IisContribution),
      (∀ r ∈ mid, r.getD 0 "" = "" ∧ r.getD 1 "" = "" ∧ r.getD 2 "" = "") →
      iisBody none none acc (mid ++ p :: rest) =
        .error (.missingField "Год") := by
  intro mid
  induction mid with
  | nil =>
    intro acc _
    simp only [List.nil_append, iisBody]
    rw [if_neg (by omega),
      if_neg (fun hcon => hp2 (all_blank_getD hcon 2))]
    rw [hp0, iisYearStep_blank, except_ok_bind]
    rw [hp1, iisLimitStep_blank, except_ok_bind]
    rw [if_neg hp2]
    rfl
  | cons m mid' ih =>
    intro acc hmid
    obtain ⟨hm0, hm1, hm2⟩ := hmid m (by simp)
    have hmid' : ∀ r ∈ mid',
        r.getD 0 "" = "" ∧ r.getD 1 "" = "" ∧ r.getD 2 "" = "" :=
      fun r hr => hmid r (by simp [hr])
    simp only [List.cons_append, iisBody]
    by_cases h6 : m.length < 6
    · rw [if_pos h6]
      exact ih acc hmid'
    · rw [if_neg h6]
      by_cases hbl : m.all (· = "") = true
      · rw [if_pos hbl]
        exact ih acc hmid'
      · rw [if_neg hbl]
        rw [hm0, iisYearStep_blank, except_ok_bind]
        rw [hm1, iisLimitStep_blank, except_ok_bind]
        rw [if_pos hm2]
        exact ih acc hmid'

/-- C10: a data row (non-blank operation date) reached before any row has
supplied a year aborts the parse with a `MissingField` error for `Год`,
even across any number of earlier rows with blank year, limit and date
cells; by contrast a data row whose year parses but that is reached before
any limit value silently defaults its `limit_rub` to exact zero instead of
erroring. -/
theorem c10_missing_year_vs_default_limit :
    (∀ (r0 r1 r2 : TableRow) (mid : List TableRow) (p : TableRow)
        (rest : List TableRow),
      (∀ r ∈ mid,
        r.getD 0 "" = "" ∧ r.getD 1 "" = "" ∧ r.getD 2 "" = "") →
      6 ≤ p.length → p.getD 0 "" = "" → p.getD 1 "" = "" →
      p.getD 2 "" ≠ "" →
      parse_iis_contributions (r0 :: r1 :: r2 :: (mid ++ p :: rest)) =
        .error (.missingField "Год")) ∧
    (∀ (r0 r1 r2 : TableRow) (p : TableRow) (y : Int) (d : NaiveDate)
        (a rem : Money),
      6 ≤ p.length → p.getD 0 "" ≠ "" →
      parseI32 (rustTrim (p.getD 0 "")) = some y →
      p.getD 1 "" = "" → p.getD 2 "" ≠ "" →
      parse_date (p.getD 2 "") = .ok d →
      parse_money_or_zero (p.getD 3 "") "Сумма ИИС" = .ok a →
      iisRemainingStep (p.getD 5 "") = .ok rem →
      parse_iis_contributions [r0, r1, r2, p] =
        .ok ⟨[IisContribution.mk y 0 d a (p.getD 4 "") rem]⟩) := by
  constructor
  · intro r0 r1 r2 mid p rest hmid hp6 hp0 hp1 hp2
    unfold parse_iis_contributions
    rw [iisLoop_zero]
    have hdrop : (r0 :: r1 :: r2 :: (mid ++ p :: rest)).drop 3 =
        mid ++ p :: rest := rfl
    rw [hdrop, iisBody_no_year_mid p rest hp6 hp0 hp1 hp2 mid [] hmid,
      except_error_bind]
  · intro r0 r1 r2 p y d a rem hp6 hp0ne hp0 hp1 hp2 hdate ham hrem
    unfold parse_iis_contributions
    rw [iisLoop_zero]
    have hdrop : ([r0, r1, r2, p] : List TableRow).drop 3 = [p] := rfl
    rw [hdrop]
    simp only [iisBody]
    rw [if_neg (by omega),
      if_neg (fun hcon => hp2 (all_blank_getD hcon 2))]
    rw [iisYearStep_parse none hp0ne hp0, except_ok_bind]
    rw [hp1, iisLimitStep_blank, except_ok_bind]
    rw [if_neg hp2]
    rw [show optionOkOr (some y) (ReportError.missingField "Год") =
        .ok y from rfl, except_ok_bind]
    rw [hdate, except_ok_bind, ham, except_ok_bind, hrem, except_ok_bind]
    rfl

/-- Witness exercising both halves of the missing-year claim. -/
theorem c10_missing_year_witness :
    parse_iis_contributions
        [[], [], [], ["", "", "01.01.2024", "", "", ""]] =
      .error (.missingField "Год") ∧
    parse_iis_contributions
        [[], [], [], ["2024", "", "01.01.2024", "", "", ""]] =
      .ok ⟨[IisContribution.mk 2024 0 ⟨2024, 1, 1⟩ 0 "" 0]⟩ :=
  ⟨c10_missing_year_vs_default_limit.1 [] [] [] []
      ["", "", "01.01.2024", "", "", ""] [] (by simp) (by decide)
      (by decide) (by decide) (by decide),
   c10_missing_year_vs_default_limit.2 [] [] []
      ["2024", "", "01.01.2024", "", "", ""] 2024 ⟨2024, 1, 1⟩ 0 0
      (by decide) (by decide) (by decide) (by decide) (by decide)
      (by decide) (by decide) (by decide)⟩

/-! ### Sorted-map lemmas -/

section BTreeLemmas

variable {K V : Type} [DecidableEq K] {ltb : K → K → Bool}

lemma btInsert_mem {k : K} {init : V} {upd : V → V} :
    ∀ (l : List (K × V)) (p : K × V), p ∈ btInsert ltb k init upd l →
      p = (k, upd init) ∨ p ∈ l ∨ ∃ q ∈ l, q.1 = k ∧ p = (q.1, upd q.2) := by
  intro l
  induction l with
  | nil =>
    intro p hp
    simp only [btInsert, List.mem_singleton] at hp
    exact Or.inl hp
  | cons a rest ih =>
    intro p hp
    obtain ⟨k', v⟩ := a
    simp only [btInsert] at hp
    by_cases h1 : ltb k k' = true
    · rw [if_pos h1] at hp
      rcases List.mem_cons.mp hp with rfl | hp2
      · exact Or.inl rfl
      · exact Or.inr (Or.inl hp2)
    · rw [if_neg h1] at hp
      by_cases h2 : k = k'
      · rw [if_pos h2] at hp
        rcases List.mem_cons.mp hp with rfl | hp2
        · exact Or.inr (Or.inr ⟨(k', v), by simp, h2.symm, rfl⟩)
        · exact Or.inr (Or.inl (by simp [hp2]))
      · rw [if_neg h2] at hp
        rcases List.mem_cons.mp hp with rfl | hp2
        · exact Or.inr (Or.inl (by simp))
        · rcases ih p hp2 with h | h | ⟨q, hq, hqk, hpe⟩
          · exact Or.inl h
          · exact Or.inr (Or.inl (by simp [h]))
          · exact Or.inr (Or.inr ⟨q, by simp [hq], hqk, hpe⟩)

lemma btInsert_sorted (laws : LtbLaws ltb) (k : K) (init : V) (upd : V → V) :
    ∀ l, btSorted ltb l → btSorted ltb (btInsert ltb k init upd l) := by
  intro l
  induction l with
  | nil => intro _; simp [btInsert, btSorted]
  | cons a rest ih =>
    intro hs
    obtain ⟨k', v⟩ := a
    obtain ⟨hhead, hrest⟩ := List.pairwise_cons.mp hs
    simp only [btInsert]
    by_cases h1 : ltb k k' = true
    · rw [if_pos h1]
      refine List.Pairwise.cons ?_ hs
      intro p hp
      rcases List.mem_cons.mp hp with rfl | hp2
      · exact h1
      · exact laws.trans _ _ _ h1 (hhead p hp2)
    · rw [if_neg h1]
      by_cases h2 : k = k'
      · rw [if_pos h2]
        exact List.Pairwise.cons hhead hrest
      · rw [if_neg h2]
        refine List.Pairwise.cons ?_ (ih hrest)
        intro p hp
        rcases btInsert_mem _ p hp with rfl | hmem | ⟨q, hq, hqk, rfl⟩
        · exact laws.total k k' (Bool.eq_false_iff.mpr h1) h2
        · exact hhead p hmem
        · rw [hqk]
          exact laws.total k k' (Bool.eq_false_iff.mpr h1) h2

lemma btLookup_cons_self (k : K) (v : V) (t : List (K × V)) :
    btLookup k ((k, v) :: t) = some v := by
  rw [btLookup, List.find?_cons_of_pos _ (by simp)]
  rfl

lemma btLookup_cons_ne {k0 k : K} (h : k0 ≠ k) (v : V) (t : List (K × V)) :
    btLookup k ((k0, v) :: t) = btLookup k t := by
  rw [btLookup, List.find?_cons_of_neg _ (by simp [h]), btLookup]

lemma btLookup_none (k : K) :
    ∀ l : List (K × V), (∀ p ∈ l, p.1 ≠ k) → btLookup k l = none := by
  intro l h
  rw [btLookup, List.find?_eq_none.mpr (fun p hp => by simp [h p hp])]
  rfl

lemma btLookup_insert (laws : LtbLaws ltb) (k k' : K) (init : V)
    (upd : V → V) :
    ∀ l, btSorted ltb l →
      btLookup k' (btInsert ltb k init upd l) =
        if k' = k then some (upd ((btLookup k l).getD init))
        else btLookup k' l := by
  intro l
  induction l with
  | nil =>
    intro _
    by_cases h : k' = k
    · subst h
      rw [if_pos rfl]
      simp only [btInsert]
      rw [btLookup_cons_self]
      rfl
    · rw [if_neg h]
      simp only [btInsert]
      rw [btLookup_cons_ne (fun hc => h hc.symm) _ _]
  | cons a rest ih =>
    intro hs
    obtain ⟨k0, v⟩ := a
    obtain ⟨hhead, hrest⟩ := List.pairwise_cons.mp hs
    simp only [btInsert]
    by_cases h1 : ltb k k0 = true
    · rw [if_pos h1]
      have hkne : k ≠ k0 := by
        intro hc
        subst hc
        rw [laws.irrefl k] at h1
        exact Bool.false_ne_true h1
      have hnone : btLookup k ((k0, v) :: rest) = none := by
        apply btLookup_none
        intro p hp
        rcases List.mem_cons.mp hp with rfl | hp2
        · exact fun hc => hkne hc.symm
        · intro hc
          have := hhead p hp2
          rw [hc] at this
          have h3 := laws.trans _ _ _ h1 this
          rw [laws.irrefl k] at h3
          exact Bool.false_ne_true h3
      by_cases h : k' = k
      · subst h
        rw [if_pos rfl, hnone, btLookup_cons_self]
        rfl
      · rw [if_neg h, btLookup_cons_ne (fun hc => h hc.symm) _ _]
    · rw [if_neg h1]
      by_cases h2 : k = k0
      · subst h2
        rw [if_pos rfl]
        by_cases h : k' = k
        · subst h
          rw [if_pos rfl, btLookup_cons_self, btLookup_cons_self]
          rfl
        · rw [if_neg h, btLookup_cons_ne (fun hc => h hc.symm) _ _,
            btLookup_cons_ne (fun hc => h hc.symm) _ _]
      · rw [if_neg h2]
        by_cases h : k' = k0
        · subst h
          have hne : k' ≠ k := fun hc => h2 hc.symm
          rw [if_neg hne, btLookup_cons_self, btLookup_cons_self]
        · rw [btLookup_cons_ne (fun hc => h hc.symm) _ _, ih hrest]
          by_cases h' : k' = k
          · subst h'
            rw [if_pos rfl, if_pos rfl,
              btLookup_cons_ne (fun hc => h2 hc.symm) _ _]
          · rw [if_neg h', if_neg h',
              btLookup_cons_ne (fun hc => h hc.symm) _ _]

end BTreeLemmas

/-! ### Cash-flow merge lemmas -/

lemma cashFlowKind_toNat_inj :
    ∀ a b : CashFlowKind, a.toNat = b.toNat → a = b := by
  intro a b h
  cases a <;> cases b <;> first
    | rfl
    | simp [CashFlowKind.toNat] at h

lemma cfKeyLtb_laws : LtbLaws cfKeyLtb := by
  refine ⟨?_, ?_, ?_⟩
  · intro a
    simp [cfKeyLtb, lt_irrefl]
  · intro a b c hab hbc
    simp only [cfKeyLtb, Bool.or_eq_true, Bool.and_eq_true,
      decide_eq_true_eq] at hab hbc ⊢
    rcases hab with h1 | ⟨h1, h2⟩ <;> rcases hbc with h3 | ⟨h3, h4⟩
    · exact Or.inl (lt_trans h1 h3)
    · exact Or.inl (by omega)
    · exact Or.inl (by omega)
    · exact Or.inr ⟨by omega, lt_trans h2 h4⟩
  · intro a b hab hne
    rcases Nat.lt_trichotomy a.1.toNat b.1.toNat with h | h | h
    · exfalso
      have : cfKeyLtb a b = true := by
        simp only [cfKeyLtb, Bool.or_eq_true, decide_eq_true_eq]
        exact Or.inl h
      rw [hab] at this
      exact Bool.false_ne_true this
    · have hk : a.1 = b.1 := cashFlowKind_toNat_inj _ _ h
      have hsne : a.2 ≠ b.2 := by
        intro hc
        exact hne (Prod.ext hk hc)
      rcases lt_trichotomy a.2 b.2 with hs | hs | hs
      · exfalso
        have : cfKeyLtb a b = true := by
          simp only [cfKeyLtb, Bool.or_eq_true, Bool.and_eq_true,
            decide_eq_true_eq]
          exact Or.inr ⟨h, hs⟩
        rw [hab] at this
        exact Bool.false_ne_true this
      · exact absurd hs hsne
      · simp only [cfKeyLtb, Bool.or_eq_true, Bool.and_eq_true,
          decide_eq_true_eq]
        exact Or.inr ⟨h.symm, hs⟩
    · simp only [cfKeyLtb, Bool.or_eq_true, decide_eq_true_eq]
      exact Or.inl h

lemma cf_fold_sorted (rows : List CashFlowRow) :
    ∀ m, btSorted cfKeyLtb m → btSorted cfKeyLtb (rows.foldl cfStep m) := by
  induction rows with
  | nil => intro m h; exact h
  | cons r rest ih =>
    intro m h
    rw [List.foldl_cons]
    exact ih _ (btInsert_sorted cfKeyLtb_laws _ _ _ m h)

lemma cfSumFor_cons_pos {k : CashFlowKind × String} {r : CashFlowRow}
    (h : cfKey r = k) (rest : List CashFlowRow) :
    cfSumFor k (r :: rest) = r.amount + cfSumFor k rest := by
  unfold cfSumFor
  rw [List.filter_cons_of_pos (by simp [h]), List.map_cons, List.sum_cons]

lemma cfSumFor_cons_neg {k : CashFlowKind × String} {r : CashFlowRow}
    (h : ¬ cfKey r = k) (rest : List CashFlowRow) :
    cfSumFor k (r :: rest) = cfSumFor k rest := by
  unfold cfSumFor
  rw [List.filter_cons_of_neg (by simp [h])]

lemma cf_fold_lookup (k : CashFlowKind × String) (rows : List CashFlowRow) :
    ∀ m, btSorted cfKeyLtb m →
      (∀ a d, btLookup k m = some (a, d) →
        btLookup k (rows.foldl cfStep m) = some (a + cfSumFor k rows, d)) ∧
      (btLookup k m = none →
        ((rows.filter (fun r => cfKey r = k)) = [] →
          btLookup k (rows.foldl cfStep m) = none) ∧
        (∀ r0 rs, rows.filter (fun r => cfKey r = k) = r0 :: rs →
          btLookup k (rows.foldl cfStep m) =
            some (cfSumFor k rows, r0.description_raw))) := by
  induction rows with
  | nil =>
    intro m _
    constructor
    · intro a d h
      rw [List.foldl_nil, h]
      simp [cfSumFor]
    · intro h
      exact ⟨fun _ => h, fun r0 rs hcon => by simp at hcon⟩
  | cons r rest ih =>
    intro m hs
    have hs' : btSorted cfKeyLtb (cfStep m r) :=
      btInsert_sorted cfKeyLtb_laws _ _ _ m hs
    have hins := btLookup_insert cfKeyLtb_laws (cfKey r) k
      (0, r.description_raw) (fun e => (e.1 + r.amount, e.2)) m hs
    by_cases hk : cfKey r = k
    · constructor
      · intro a d h
        rw [List.foldl_cons]
        have h2 : btLookup k (cfStep m r) = some (a + r.amount, d) := by
          simp only [cfStep]
          rw [hins, if_pos hk.symm, hk, h]
          rfl
        rw [(ih (cfStep m r) hs').1 (a + r.amount) d h2,
          cfSumFor_cons_pos hk]
        congr 1
        congr 1
        ring
      · intro h
        constructor
        · intro hfil
          rw [List.filter_cons_of_pos (by simpa using hk)] at hfil
          simp at hfil
        · intro r0 rs hfil
          rw [List.filter_cons_of_pos (by simpa using hk)] at hfil
          obtain ⟨rfl, -⟩ : r = r0 ∧ rest.filter (fun x => cfKey x = k) = rs :=
            by simpa using hfil
          rw [List.foldl_cons]
          have h2 : btLookup k (cfStep m r) =
              some (0 + r.amount, r.description_raw) := by
            simp only [cfStep]
            rw [hins, if_pos hk.symm, hk, h]
            rfl
          rw [(ih (cfStep m r) hs').1 _ _ h2, cfSumFor_cons_pos hk]
          congr 1
          congr 1
          ring
    · have h2eq : btLookup k (cfStep m r) = btLookup k m := by
        simp only [cfStep]
        rw [hins, if_neg (fun hc => hk hc.symm)]
      constructor
      · intro a d h
        rw [List.foldl_cons,
          (ih (cfStep m r) hs').1 a d (by rw [h2eq]; exact h),
          cfSumFor_cons_neg hk]
      · intro h
        obtain ⟨hA, hB⟩ := (ih (cfStep m r) hs').2 (by rw [h2eq]; exact h)
        constructor
        · intro hfil
          rw [List.filter_cons_of_neg (by simpa using hk)] at hfil
          rw [List.foldl_cons]
          exact hA hfil
        · intro r0 rs hfil
          rw [List.filter_cons_of_neg (by simpa using hk)] at hfil
          rw [List.foldl_cons, hB r0 rs hfil, cfSumFor_cons_neg hk]

lemma btSorted_key_ne_head {K V : Type} [DecidableEq K]
    {ltb : K → K → Bool} (laws : LtbLaws ltb) {k1 : K} {v1 : V}
    {t : List (K × V)} (hs : btSorted ltb ((k1, v1) :: t)) :
    btLookup k1 t = none := by
  obtain ⟨hhead, -⟩ := List.pairwise_cons.mp hs
  apply btLookup_none
  intro p hp hc
  have h1 := hhead p hp
  rw [hc] at h1
  rw [laws.irrefl k1] at h1
  exact Bool.false_ne_true h1

lemma btSorted_ext {K V W : Type} [DecidableEq K] {ltb : K → K → Bool}
    (laws : LtbLaws ltb) (F : V → W) :
    ∀ l1 l2 : List (K × V), btSorted ltb l1 → btSorted ltb l2 →
      (∀ k, (btLookup k l1).map F = (btLookup k l2).map F) →
      l1.map (fun p => (p.1, F p.2)) = l2.map (fun p => (p.1, F p.2)) := by
  intro l1
  induction l1 with
  | nil =>
    intro l2 _ hs2 hext
    cases l2 with
    | nil => rfl
    | cons b t2 =>
      obtain ⟨k2, v2⟩ := b
      have hcon := hext k2
      rw [btLookup_cons_self] at hcon
      simp [btLookup] at hcon
  | cons a t1 ih =>
    intro l2 hs1 hs2 hext
    obtain ⟨k1, v1⟩ := a
    cases l2 with
    | nil =>
      have hcon := hext k1
      rw [btLookup_cons_self] at hcon
      simp [btLookup] at hcon
    | cons b t2 =>
      obtain ⟨k2, v2⟩ := b
      obtain ⟨hhead1, hrest1⟩ := List.pairwise_cons.mp hs1
      obtain ⟨hhead2, hrest2⟩ := List.pairwise_cons.mp hs2
      have hk : k1 = k2 := by
        by_contra hne
        by_cases hlt : ltb k1 k2 = true
        · have hnone : btLookup k1 ((k2, v2) :: t2) = none := by
            apply btLookup_none
            intro p hp
            rcases List.mem_cons.mp hp with rfl | hp2
            · exact fun hc => hne hc.symm
            · intro hc
              have h3 := hhead2 p hp2
              rw [hc] at h3
              have h4 := laws.trans _ _ _ hlt h3
              rw [laws.irrefl k1] at h4
              exact Bool.false_ne_true h4
          have hcon := hext k1
          rw [btLookup_cons_self, hnone] at hcon
          simp at hcon
        · have hlt2 : ltb k2 k1 = true :=
            laws.total _ _ (Bool.eq_false_iff.mpr hlt) hne
          have hnone : btLookup k2 ((k1, v1) :: t1) = none := by
            apply btLookup_none
            intro p hp
            rcases List.mem_cons.mp hp with rfl | hp2
            · exact fun hc => hne hc
            · intro hc
              have h3 := hhead1 p hp2
              rw [hc] at h3
              have h4 := laws.trans _ _ _ hlt2 h3
              rw [laws.irrefl k2] at h4
              exact Bool.false_ne_true h4
          have hcon := hext k2
          rw [btLookup_cons_self, hnone] at hcon
          simp at hcon
      subst hk
      have hv : F v1 = F v2 := by
        have h0 := hext k1
        rw [btLookup_cons_self, btLookup_cons_self] at h0
        simpa using h0
      simp only [List.map_cons, hv]
      congr 1
      apply ih t2 hrest1 hrest2
      intro k
      by_cases hk1 : k = k1
      · subst hk1
        rw [btSorted_key_ne_head laws hs1, btSorted_key_ne_head laws hs2]
      · have h0 := hext k
        rw [btLookup_cons_ne (fun hc => hk1 hc.symm) _ _,
          btLookup_cons_ne (fun hc => hk1 hc.symm) _ _] at h0
        exact h0

lemma cfSumFor_append (k : CashFlowKind × String) (xs ys : List CashFlowRow) :
    cfSumFor k (xs ++ ys) = cfSumFor k xs + cfSumFor k ys := by
  simp [cfSumFor, List.filter_append]

lemma mergeCashFlows_pair (X Y : Report) :
    mergeCashFlows [X, Y] =
      ⟨((cfRows X ++ cfRows Y).foldl cfStep []).map
        (fun e => ⟨e.1.1, e.2.2, e.2.1, e.1.2⟩)⟩ := by
  simp only [mergeCashFlows]
  rw [List.foldl_cons, List.foldl_cons, List.foldl_nil, List.foldl_append]

lemma cf_merge_lookup_eq (ra rb : List CashFlowRow)
    (k : CashFlowKind × String) :
    (btLookup k ((ra ++ rb).foldl cfStep [])).map (fun e => e.1) =
      (btLookup k ((rb ++ ra).foldl cfStep [])).map (fun e => e.1) := by
  have h1 := (cf_fold_lookup k (ra ++ rb) [] List.Pairwise.nil).2 rfl
  have h2 := (cf_fold_lookup k (rb ++ ra) [] List.Pairwise.nil).2 rfl
  rcases hfa : ra.filter (fun r => cfKey r = k) with _ | ⟨a0, as⟩ <;>
    rcases hfb : rb.filter (fun r => cfKey r = k) with _ | ⟨b0, bs⟩
  · rw [h1.1 (by rw [List.filter_append, hfa, hfb]; rfl),
      h2.1 (by rw [List.filter_append, hfa, hfb]; rfl)]
  · rw [h1.2 b0 bs (by rw [List.filter_append, hfa, hfb]; rfl),
      h2.2 b0 (bs ++ []) (by rw [List.filter_append, hfa, hfb]; rfl)]
    simp only [Option.map_some']
    rw [cfSumFor_append, cfSumFor_append, add_comm]
  · rw [h1.2 a0 (as ++ []) (by rw [List.filter_append, hfa, hfb]; rfl),
      h2.2 a0 as (by rw [List.filter_append, hfa, hfb]; rfl)]
    simp only [Option.map_some']
    rw [cfSumFor_append, cfSumFor_append, add_comm]
  · rw [h1.2 a0 (as ++ b0 :: bs) (by rw [List.filter_append, hfa, hfb]; rfl),
      h2.2 b0 (bs ++ a0 :: as) (by rw [List.filter_append, hfa, hfb]; rfl)]
    simp only [Option.map_some']
    rw [cfSumFor_append, cfSumFor_append, add_comm]

lemma cf_nodup_of_pairwise (l : List (CashFlowKind × String))
    (hl : l.Pairwise (fun a b => cfKeyLtb a b = true)) : l.Nodup := by
  refine hl.imp ?_
  intro a b hab hc
  rw [hc, cfKeyLtb_laws.irrefl] at hab
  exact Bool.false_ne_true hab

/-- C6: merging the cash flows of the report pairs `[A, B]` and `[B, A]`
yields the same grouped `(kind, currency, summed amount)` rows, and in
either order the output keys are strictly ascending in the lexicographic
`(kind, currency)` order — hence each group key occurs exactly once. -/
theorem c6_cash_flow_merge_commutative (A B : Report) :
    ((mergeCashFlows [A, B]).rows.map
        (fun r => (r.kind, r.currency, r.amount)) =
      (mergeCashFlows [B, A]).rows.map
        (fun r => (r.kind, r.currency, r.amount))) ∧
    ((mergeCashFlows [A, B]).rows.map
        (fun r => (r.kind, r.currency))).Pairwise
      (fun a b => cfKeyLtb a b = true) ∧
    ((mergeCashFlows [A, B]).rows.map (fun r => (r.kind, r.currency))).Nodup ∧
    ((mergeCashFlows [B, A]).rows.map
        (fun r => (r.kind, r.currency))).Pairwise
      (fun a b => cfKeyLtb a b = true) ∧
    ((mergeCashFlows [B, A]).rows.map (fun r => (r.kind, r.currency))).Nodup := by
  have hs1 : btSorted cfKeyLtb ((cfRows A ++ cfRows B).foldl cfStep []) :=
    cf_fold_sorted _ _ List.Pairwise.nil
  have hs2 : btSorted cfKeyLtb ((cfRows B ++ cfRows A).foldl cfStep []) :=
    cf_fold_sorted _ _ List.Pairwise.nil
  have hproj := btSorted_ext cfKeyLtb_laws (fun v : Money × String => v.1)
    ((cfRows A ++ cfRows B).foldl cfStep [])
    ((cfRows B ++ cfRows A).foldl cfStep []) hs1 hs2
    (fun k => cf_merge_lookup_eq (cfRows A) (cfRows B) k)
  have hpair1 : ((mergeCashFlows [A, B]).rows.map
      (fun r => (r.kind, r.currency))).Pairwise
      (fun a b => cfKeyLtb a b = true) := by
    rw [mergeCashFlows_pair A B]
    simp only [List.map_map]
    refine List.pairwise_map.mpr ?_
    refine hs1.imp ?_
    intro a b hab
    simpa using hab
  have hpair2 : ((mergeCashFlows [B, A]).rows.map
      (fun r => (r.kind, r.currency))).Pairwise
      (fun a b => cfKeyLtb a b = true) := by
    rw [mergeCashFlows_pair B A]
    simp only [List.map_map]
    refine List.pairwise_map.mpr ?_
    refine hs2.imp ?_
    intro a b hab
    simpa using hab
  refine ⟨?_, hpair1, cf_nodup_of_pairwise _ hpair1, hpair2,
    cf_nodup_of_pairwise _ hpair2⟩
  rw [mergeCashFlows_pair A B, mergeCashFlows_pair B A]
  simp only [List.map_map]
  have hcomp := congrArg
    (List.map (fun q : (CashFlowKind × String) × Money => (q.1.1, q.1.2, q.2)))
    hproj
  simpa [List.map_map, Function.comp] using hcomp

/-! ### Position merge lemmas -/

lemma posKeyLtb_laws : LtbLaws posKeyLtb := by
  refine ⟨?_, ?_, ?_⟩
  · intro a
    simp [posKeyLtb, lt_irrefl]
  · intro a b c hab hbc
    simp only [posKeyLtb, decide_eq_true_eq] at hab hbc ⊢
    exact lt_trans hab hbc
  · intro a b hab hne
    have hnlt : ¬ a < b := by simpa [posKeyLtb] using hab
    rcases lt_trichotomy a b with h | h | h
    · exact absurd h hnlt
    · exact absurd h hne
    · simp [posKeyLtb, h]

lemma pos_fold_sorted (ps : List SecurityPosition) :
    ∀ m, btSorted posKeyLtb m → btSorted posKeyLtb (ps.foldl posStep m) := by
  induction ps with
  | nil => intro m h; exact h
  | cons p rest ih =>
    intro m h
    rw [List.foldl_cons]
    exact ih _ (btInsert_sorted posKeyLtb_laws _ _ _ m h)

lemma mpAddSum_nil (e : MergedPosition) : mpAddSum e [] = e := by
  cases e
  simp [mpAddSum]

lemma mpAddSum_cons (e : MergedPosition) (x : SecurityPosition)
    (l : List SecurityPosition) :
    mpAddSum e (x :: l) = mpAddSum (mpAdd e x) l := by
  cases e
  simp [mpAddSum, mpAdd, add_assoc]

lemma pos_fold_lookup (k : String) (ps : List SecurityPosition) :
    ∀ m, btSorted posKeyLtb m →
      (∀ e, btLookup k m = some e →
        btLookup k (ps.foldl posStep m) =
          some (mpAddSum e (ps.filter (fun p => p.isin = k)))) ∧
      (btLookup k m = none →
        ((ps.filter (fun p => p.isin = k)) = [] →
          btLookup k (ps.foldl posStep m) = none) ∧
        (∀ p0 rs, ps.filter (fun p => p.isin = k) = p0 :: rs →
          btLookup k (ps.foldl posStep m) =
            some (mpAddSum (mpInit p0) (p0 :: rs)))) := by
  induction ps with
  | nil =>
    intro m _
    constructor
    · intro e h
      rw [List.foldl_nil, h]
      simp only [List.filter_nil, mpAddSum_nil]
    · intro h
      exact ⟨fun _ => h, fun p0 rs hcon => by simp at hcon⟩
  | cons p rest ih =>
    intro m hs
    have hs' : btSorted posKeyLtb (posStep m p) :=
      btInsert_sorted posKeyLtb_laws _ _ _ m hs
    have hins := btLookup_insert posKeyLtb_laws p.isin k
      (mpInit p) (fun e => mpAdd e p) m hs
    by_cases hk : p.isin = k
    · constructor
      · intro e h
        rw [List.foldl_cons]
        have h2 : btLookup k (posStep m p) = some (mpAdd e p) := by
          simp only [posStep]
          rw [hins, if_pos hk.symm, hk, h]
          rfl
        rw [(ih (posStep m p) hs').1 (mpAdd e p) h2,
          List.filter_cons_of_pos (by simp [hk]), mpAddSum_cons]
      · intro h
        constructor
        · intro hfil
          rw [List.filter_cons_of_pos (by simp [hk])] at hfil
          simp at hfil
        · intro p0 rs hfil
          rw [List.filter_cons_of_pos (by simp [hk])] at hfil
          obtain ⟨rfl, hrs⟩ :
              p = p0 ∧ rest.filter (fun x => x.isin = k) = rs := by
            simpa using hfil
          rw [List.foldl_cons]
          have h2 : btLookup k (posStep m p) =
              some (mpAdd (mpInit p) p) := by
            simp only [posStep]
            rw [hins, if_pos hk.symm, hk, h]
            rfl
          rw [(ih (posStep m p) hs').1 _ h2, hrs, ← mpAddSum_cons]
    · have h2eq : btLookup k (posStep m p) = btLookup k m := by
        simp only [posStep]
        rw [hins, if_neg (fun hc => hk hc.symm)]
      constructor
      · intro e h
        rw [List.foldl_cons,
          (ih (posStep m p) hs').1 e (by rw [h2eq]; exact h),
          List.filter_cons_of_neg (by simp [hk])]
      · intro h
        obtain ⟨hA, hB⟩ := (ih (posStep m p) hs').2 (by rw [h2eq]; exact h)
        constructor
        · intro hfil
          rw [List.filter_cons_of_neg (by simp [hk])] at hfil
          rw [List.foldl_cons]
          exact hA hfil
        · intro p0 rs hfil
          rw [List.filter_cons_of_neg (by simp [hk])] at hfil
          rw [List.foldl_cons, hB p0 rs hfil]

lemma marketsConcat_eq (mks : List PortfolioMarket) :
    ∀ l0 : List SecurityPosition,
      mks.foldl (fun acc mk => acc ++ mk.positions) l0 =
        l0 ++ mks.foldl (fun acc mk => acc ++ mk.positions) [] := by
  induction mks with
  | nil => intro l0; simp
  | cons h t ih =>
    intro l0
    rw [List.foldl_cons, List.foldl_cons, ih (l0 ++ h.positions),
      ih ([] ++ h.positions)]
    simp [List.append_assoc]

lemma foldl_posStep_markets (mks : List PortfolioMarket) :
    ∀ acc : List (String × MergedPosition),
      mks.foldl (fun acc2 mk => mk.positions.foldl posStep acc2) acc =
        (mks.foldl (fun acc mk => acc ++ mk.positions) []).foldl
          posStep acc := by
  induction mks with
  | nil => intro acc; rfl
  | cons h t ih =>
    intro acc
    rw [List.foldl_cons, ih (h.positions.foldl posStep acc),
      List.foldl_cons, marketsConcat_eq t ([] ++ h.positions)]
    simp only [List.nil_append]
    rw [List.foldl_append]

lemma mergePositions_single (X : Report) :
    mergePositions [X] =
      ((posList X).foldl posStep []).map (fun e => e.2) := by
  simp only [mergePositions, List.foldl_cons, List.foldl_nil]
  cases hX : X.portfolio with
  | none =>
    show ([] : List (String × MergedPosition)).map (fun e => e.2) = _
    simp [posList, hX]
  | some pf =>
    show (pf.markets.foldl (fun acc2 mk => mk.positions.foldl posStep acc2)
        []).map (fun e => e.2) = _
    rw [foldl_posStep_markets]
    simp [posList, hX]

lemma mergePositions_pair (X Y : Report) :
    mergePositions [X, Y] =
      ((posList X ++ posList Y).foldl posStep []).map (fun e => e.2) := by
  simp only [mergePositions, List.foldl_cons, List.foldl_nil]
  cases hX : X.portfolio with
  | none =>
    cases hY : Y.portfolio with
    | none =>
      show ([] : List (String × MergedPosition)).map (fun e => e.2) = _
      simp [posList, hX, hY]
    | some pfY =>
      show (pfY.markets.foldl
          (fun acc2 mk => mk.positions.foldl posStep acc2) []).map
          (fun e => e.2) = _
      rw [foldl_posStep_markets]
      simp [posList, hX, hY]
  | some pfX =>
    cases hY : Y.portfolio with
    | none =>
      show (pfX.markets.foldl
          (fun acc2 mk => mk.positions.foldl posStep acc2) []).map
          (fun e => e.2) = _
      rw [foldl_posStep_markets]
      simp [posList, hX, hY]
    | some pfY =>
      show (pfY.markets.foldl
          (fun acc2 mk => mk.positions.foldl posStep acc2)
          (pfX.markets.foldl
            (fun acc2 mk => mk.positions.foldl posStep acc2) [])).map
          (fun e => e.2) = _
      rw [foldl_posStep_markets pfY.markets,
        foldl_posStep_markets pfX.markets]
      simp only [posList, hX, hY, List.foldl_append]

lemma posStep_isin_inv (ps : List SecurityPosition) :
    ∀ m : List (String × MergedPosition),
      (∀ e ∈ m, e.2.isin = e.1) →
      ∀ e ∈ ps.foldl posStep m, e.2.isin = e.1 := by
  induction ps with
  | nil => intro m h; exact h
  | cons p rest ih =>
    intro m h
    rw [List.foldl_cons]
    refine ih (posStep m p) ?_
    intro e he
    simp only [posStep] at he
    rcases btInsert_mem m e he with rfl | hmem | ⟨q, hq, hqk, rfl⟩
    · simp [mpAdd, mpInit]
    · exact h e hmem
    · simpa [mpAdd] using h q hq

lemma find?_values_eq_btLookup (k : String) :
    ∀ m : List (String × MergedPosition),
      (∀ e ∈ m, e.2.isin = e.1) →
      (m.map (fun e => e.2)).find? (fun e => e.isin = k) =
        (btLookup k m).map id := by
  intro m
  induction m with
  | nil => intro _; rfl
  | cons a t ih =>
    intro hinv
    have ha : a.2.isin = a.1 := hinv a (by simp)
    by_cases hk : a.1 = k
    · rw [List.map_cons, List.find?_cons_of_pos _ (by simp [ha, hk]),
        btLookup, List.find?_cons_of_pos _ (by simp [hk])]
      rfl
    · rw [List.map_cons, List.find?_cons_of_neg _ (by simp [ha, hk]),
        btLookup, List.find?_cons_of_neg _ (by simp [hk])]
      exact ih (fun e he => hinv e (by simp [he]))

lemma sum_double (f : SecurityPosition → Money) (p0 : SecurityPosition)
    (rs : List SecurityPosition) :
    ((p0 :: (rs ++ p0 :: rs)).map f).sum = 2 * ((p0 :: rs).map f).sum := by
  simp only [List.map_cons, List.map_append, List.sum_cons, List.sum_append]
  ring

/-- C7: merging the positions of `[R, R]` doubles, for every ISIN present
in `R`, the six summed numeric fields relative to merging `[R]` alone,
while `isin`, `name` and `price_currency` coincide with the single-report
result (taken from the first occurrence). -/
theorem c7_position_merge_doubles (R : Report) (k : String)
    (h : k ∈ (posList R).map (fun p => p.isin)) :
    ∃ m1 m2 : MergedPosition,
      (mergePositions [R]).find? (fun e => e.isin = k) = some m1 ∧
      (mergePositions [R, R]).find? (fun e => e.isin = k) = some m2 ∧
      m2.isin = m1.isin ∧ m2.name = m1.name ∧
      m2.price_currency = m1.price_currency ∧
      m2.qty_start = 2 * m1.qty_start ∧
      m2.qty_end = 2 * m1.qty_end ∧
      m2.value_start_no_ai = 2 * m1.value_start_no_ai ∧
      m2.value_end_no_ai = 2 * m1.value_end_no_ai ∧
      m2.qty_delta = 2 * m1.qty_delta ∧
      m2.value_delta = 2 * m1.value_delta := by
  have hmem : ∃ p ∈ posList R, p.isin = k := by simpa using h
  cases hfil : (posList R).filter (fun p => p.isin = k) with
  | nil =>
    exfalso
    obtain ⟨p, hp, hpk⟩ := hmem
    have hpf : p ∈ (posList R).filter (fun p => p.isin = k) :=
      List.mem_filter.mpr ⟨hp, by simp [hpk]⟩
    rw [hfil] at hpf
    simp at hpf
  | cons p0 rs =>
    have hfil2 : ((posList R) ++ (posList R)).filter
        (fun p => p.isin = k) = p0 :: (rs ++ p0 :: rs) := by
      rw [List.filter_append, hfil]
      rfl
    have hL1 : btLookup k ((posList R).foldl posStep []) =
        some (mpAddSum (mpInit p0) (p0 :: rs)) :=
      ((pos_fold_lookup k (posList R) [] List.Pairwise.nil).2 rfl).2
        p0 rs hfil
    have hL2 : btLookup k (((posList R) ++ (posList R)).foldl posStep []) =
        some (mpAddSum (mpInit p0) (p0 :: (rs ++ p0 :: rs))) :=
      ((pos_fold_lookup k ((posList R) ++ (posList R)) []
        List.Pairwise.nil).2 rfl).2 p0 _ hfil2
    have hinv1 : ∀ e ∈ (posList R).foldl posStep [], e.2.isin = e.1 :=
      posStep_isin_inv (posList R) [] (by simp)
    have hinv2 : ∀ e ∈ ((posList R) ++ (posList R)).foldl posStep [],
        e.2.isin = e.1 :=
      posStep_isin_inv ((posList R) ++ (posList R)) [] (by simp)
    refine ⟨mpAddSum (mpInit p0) (p0 :: rs),
      mpAddSum (mpInit p0) (p0 :: (rs ++ p0 :: rs)), ?_, ?_,
      ?_, ?_, ?_, ?_, ?_, ?_, ?_, ?_, ?_⟩
    · rw [mergePositions_single, find?_values_eq_btLookup k _ hinv1, hL1]
      rfl
    · rw [mergePositions_pair, find?_values_eq_btLookup k _ hinv2, hL2]
      rfl
    · simp [mpAddSum, mpInit]
    · simp [mpAddSum, mpInit]
    · simp [mpAddSum, mpInit]
    · simp only [mpAddSum, mpInit, zero_add]
      exact sum_double (fun p => p.qty_start) p0 rs
    · simp only [mpAddSum, mpInit, zero_add]
      exact sum_double (fun p => p.qty_end) p0 rs
    · simp only [mpAddSum, mpInit, zero_add]
      exact sum_double (fun p => p.value_start_no_ai) p0 rs
    · simp only [mpAddSum, mpInit, zero_add]
      exact sum_double (fun p => p.value_end_no_ai) p0 rs
    · simp only [mpAddSum, mpInit, zero_add]
      exact sum_double (fun p => p.qty_delta) p0 rs
    · simp only [mpAddSum, mpInit, zero_add]
      exact sum_double (fun p => p.value_delta) p0 rs

/-- Witness for the position-doubling claim on the one-position fixture. -/
theorem c7_position_witness :
    ∃ m1 m2 : MergedPosition,
      (mergePositions [samplePortfolioReport]).find?
        (fun e => e.isin = "RU0001") = some m1 ∧
      (mergePositions [samplePortfolioReport, samplePortfolioReport]).find?
        (fun e => e.isin = "RU0001") = some m2 ∧
      m2.isin = m1.isin ∧ m2.name = m1.name ∧
      m2.price_currency = m1.price_currency ∧
      m2.qty_start = 2 * m1.qty_start ∧
      m2.qty_end = 2 * m1.qty_end ∧
      m2.value_start_no_ai = 2 * m1.value_start_no_ai ∧
      m2.value_end_no_ai = 2 * m1.value_end_no_ai ∧
      m2.qty_delta = 2 * m1.qty_delta ∧
      m2.value_delta = 2 * m1.value_delta :=
  c7_position_merge_doubles samplePortfolioReport "RU0001" (by decide)
